import Mathlib

/-!
Verification of the meta-hybrid_mount core against its specification.

Shallow embedding of the Rust sources:
 * `src/mount/overlayfs/overlayfs.rs` (lowerdir string assembly, `mount_overlay`)
 * `src/mount/overlayfs/utils.rs` (`umount_dir`)
 * `src/core/planner.rs` (`generate`)
 * `src/core/winnow.rs` (`sift_conflicts`)
 * `src/core/executor.rs` (`execute`)
 * `src/mount/magic.rs` (`merge_nodes`, `MagicMount::handle_directory`)
 * `src/try_umount.rs` (`send_unmountable`)
 * `src/utils/fs/xattr.rs` (`lsetfilecon`)

Filesystem and kernel interactions are modelled by explicit oracles
(`Bool`/`Option`-valued functions passed as arguments); machine effects
such as log output are modelled as explicit event lists where a claim
mentions them.  Rust `HashMap` iteration, whose order is unspecified, is
modelled by passing the iteration order explicitly and quantifying, or by
association lists whose observable content is compared extensionally.
-/

namespace HybridUtil

/-- Lexicographic comparison of character lists (byte order on ASCII),
modelling Rust's `Ord` on `String`/`PathBuf` components. -/
def strLeAux : List Char → List Char → Bool
  | [], _ => true
  | _ :: _, [] => false
  | a :: as, b :: bs => if a = b then strLeAux as bs else decide (a < b)

/-- Lexicographic order on strings used to model Rust `Vec::sort`. -/
def strLe (a b : String) : Bool := strLeAux a.data b.data

/-- Insert into a `le`-sorted list (helper for `isort`). -/
def insertLe {α : Type} (le : α → α → Bool) (a : α) : List α → List α
  | [] => [a]
  | b :: bs => if le a b then a :: b :: bs else b :: insertLe le a bs

/-- Insertion sort, modelling Rust `Vec::sort` (evaluates by kernel
reduction, unlike `List.mergeSort` in this toolchain). -/
def isort {α : Type} (le : α → α → Bool) : List α → List α
  | [] => []
  | a :: as => insertLe le a (isort le as)

end HybridUtil

namespace TryUmount

/-- State of the process-global umount sink of `src/try_umount.rs`:
`HISTORY` (a `HashSet<String>`, modelled as the list of inserted strings)
and `LIST` (the `TryUmount` path list, in insertion order). -/
structure SinkState where
  history : List String
  queue : List String
  deriving Repr, DecidableEq

/-- `send_unmountable` from `src/try_umount.rs` lines 17-40.
`ksu` models `crate::utils::KSU` (whether the KernelSU helper is
available).  Returns the new state paired with `true` for `Ok(())`
(every return in the source is `Ok`; lock poisoning is not modelled). -/
def send_unmountable (ksu : Bool) (s : SinkState) (target : String) :
    SinkState × Bool :=
  if !ksu then (s, true)
  else if s.history.contains target then (s, true)
  else ({ history := s.history ++ [target], queue := s.queue ++ [target] }, true)

end TryUmount

namespace Xattr

/-- `lsetfilecon` from `src/utils/fs/xattr.rs` lines 66-79.
`lsetxattr` is a kernel call; its outcome is an oracle argument.  The
source pattern-matches `if let Err(e) = lsetxattr(..) { let _ = e; }`
and then returns `Ok(())` unconditionally. -/
def lsetfilecon (lsetxattrResult : String → String → Except String Unit)
    (path con : String) : Except String Unit :=
  match lsetxattrResult path con with
  | .error _ => .ok ()
  | .ok _ => .ok ()

end Xattr

namespace Overlayfs

/-- The list of directory entries joined into the `lowerdir=` option by
`mount_overlayfs` (`src/mount/overlayfs/overlayfs.rs` lines 28-33):
`lower_dirs.iter().map(as_ref).chain(once(lowest)).collect()`. -/
def lowerdirEntries (lower_dirs : List String) (lowest : String) : List String :=
  lower_dirs ++ [lowest]

/-- The `lowerdir` string handed to `fsconfig_set_string` / `mount(2)` by
`mount_overlayfs`: the entries joined with `":"`. -/
def lowerdirConfig (lower_dirs : List String) (lowest : String) : String :=
  String.intercalate ":" (lowerdirEntries lower_dirs lowest)

end Overlayfs

namespace Winnow

/-- `ConflictDetail` (referenced by `sift_conflicts` as
`crate::core::planner::ConflictDetail`).  Modelled from the spec: the
type's declaration is not present under `src/`; §3 of the spec gives its
fields as the partition, the partition-relative path and the ordered
contender list, and `sift_conflicts` reads `relative_path` and
`contending_modules`. -/
structure ConflictDetail where
  partition : String
  relative_path : String
  contending_modules : List String
  deriving Repr, DecidableEq

/-- `ChaffConflict` from `src/core/winnow.rs` lines 5-11. -/
structure ChaffConflict where
  path : String
  contenders : List String
  selected : String
  is_forced : Bool
  deriving Repr, DecidableEq

/-- `WinnowingTable.rules` is a `HashMap<String, String>`; modelled as an
association list with distinct keys, looked up by key. -/
def WinnowingTable := List (String × String)

/-- `WinnowingTable::get_preferred_module` from `src/conf/config.rs`:
`self.rules.get(&path_str).cloned()`. -/
def get_preferred_module (t : WinnowingTable) (path : String) : Option String :=
  (t.find? (fun kv => kv.1 == path)).map (·.2)

/-- `sift_conflicts` from `src/core/winnow.rs` lines 13-38. -/
def sift_conflicts (conflicts : List ConflictDetail) (table : WinnowingTable) :
    List ChaffConflict :=
  conflicts.map (fun c =>
    let path_str := "/system/" ++ c.relative_path
    let forced_module := get_preferred_module table path_str
    let selected :=
      match forced_module with
      | some forced =>
          if c.contending_modules.contains forced then forced
          else c.contending_modules.getLastD "unknown"
      | none => c.contending_modules.getLastD "unknown"
    { path := path_str
      contenders := c.contending_modules
      selected := selected
      is_forced := forced_module.isSome })

end Winnow

namespace Planner

/-- `Module` as consumed by `generate` (`src/core/planner.rs`): id,
declared mode and source path (only the fields `generate` reads). -/
structure Module where
  id : String
  mode : String
  source_path : String
  deriving Repr, DecidableEq

/-- `OverlayOperation` from `src/core/planner.rs` lines 7-11. -/
structure OverlayOperation where
  target : String
  lowerdirs : List String
  deriving Repr, DecidableEq

/-- Filesystem oracle for the planner: the live-filesystem queries
`generate` performs (`Path::exists`, `is_dir`, `read_dir` non-emptiness,
`is_symlink`, `canonicalize`). -/
structure Fs where
  pathExists : String → Bool
  isDir : String → Bool
  hasFiles : String → Bool
  isSymlink : String → Bool
  canonicalize : String → Option String

/-- `Path::join` on string paths. -/
def joinPath (base part : String) : String := base ++ "/" ++ part

/-- `has_files` from `src/core/planner.rs` lines 121-128 (read_dir yields
at least one entry), via the oracle. -/
def has_files (fs : Fs) (p : String) : Bool := fs.hasFiles p

/-- `has_meaningful_content` from `src/core/planner.rs` lines 130-138. -/
def has_meaningful_content (fs : Fs) (base : String) (partitions : List String) :
    Bool :=
  partitions.any (fun part =>
    fs.pathExists (joinPath base part) && has_files fs (joinPath base part))

/-- `partition_layers.entry(part).or_default().push(pp)`: association-list
model of the `HashMap<String, Vec<PathBuf>>` insertion of
`src/core/planner.rs` lines 63-65 (key kept at first-insertion position,
value appended). -/
def upsertLayer (m : List (String × List String)) (k v : String) :
    List (String × List String) :=
  if m.any (fun kv => kv.1 == k) then
    m.map (fun kv => if kv.1 == k then (kv.1, kv.2 ++ [v]) else kv)
  else m ++ [(k, [v])]

/-- The `partition_layers` map built by the module loop of `generate`
(`src/core/planner.rs` lines 39-78), as an association list in key
first-insertion order. -/
def buildPartitionLayers (fs : Fs) (modules : List Module)
    (targetParts : List String) (storageRoot : String) :
    List (String × List String) :=
  modules.foldl (fun acc m =>
    if m.mode == "magic" then acc
    else
      let content := joinPath storageRoot m.id
      if !fs.pathExists content then acc
      else
        targetParts.foldl (fun acc2 part =>
          let pp := joinPath content part
          if fs.isDir pp && has_files fs pp then upsertLayer acc2 part pp
          else acc2) acc) []

/-- The target-resolution step of `generate` (`src/core/planner.rs` lines
81-103): `/<part>` is skipped unless it is a symlink or exists; it is
canonicalized (`none` models a canonicalization error, which skips), and
a non-directory resolution skips. -/
def resolveTarget (fs : Fs) (part : String) : Option String :=
  let initial := "/" ++ part
  if fs.isSymlink initial || fs.pathExists initial then
    match fs.canonicalize initial with
    | some r => if fs.isDir r then some r else none
    | none => none
  else none

/-- The `overlay_ops` emitted by the `for (part, layers) in
partition_layers` loop of `generate` (`src/core/planner.rs` lines
80-109).  Rust iterates the `HashMap` in an unspecified order, so the
iteration sequence is an explicit argument; theorems quantify over every
permutation of `buildPartitionLayers`'s entries.  No sorting of the ops
is performed by the source. -/
def overlayOpsOfIteration (fs : Fs) (iteration : List (String × List String)) :
    List OverlayOperation :=
  iteration.filterMap (fun kv =>
    (resolveTarget fs kv.1).map (fun t => ⟨t, kv.2⟩))

/-- `plan.overlay_module_ids` / `plan.magic_module_ids` are sorted at the
end of `generate` (lines 115-116); sorted-set model of a `HashSet`
collected into a `Vec` and sorted. -/
def sortedIds (ids : List String) : List String :=
  HybridUtil.isort HybridUtil.strLe ids.dedup

end Planner

namespace Executor

/-- Paths handled by the executor, as component lists (`/a/b` is
`["a", "b"]`); `Path::parent` drops the last component and `file_name`
is the last component. -/
abbrev EPath := List String

/-- `Path::parent` (returns `None` for the root/empty path). -/
def parentPath (p : EPath) : Option EPath :=
  if p.isEmpty then none else some p.dropLast

/-- `Path::file_name`. -/
def fileName (p : EPath) : Option String := p.getLast?

/-- `extract_module_root` from `src/core/executor.rs` lines 35-37:
`partition_path.parent()`. -/
def extract_module_root (p : EPath) : Option EPath := parentPath p

/-- `utils::extract_module_id`.  Modelled from the spec: the function
lives in a `utils` module not present under `src/`; §4.6 of the spec
says the module ID is "derived by taking each lowerdir's parent
directory's basename". -/
def extract_module_id (p : EPath) : Option String :=
  (parentPath p).bind fileName

/-- `OverlayOperation` as the executor consumes it (`src/core/executor.rs`
reads `target`, `partition_name` and `lowerdirs`). -/
structure OverlayOp where
  target : String
  partition_name : String
  lowerdirs : List EPath
  deriving Repr, DecidableEq

/-- `MountPlan` as consumed by `execute` (`src/core/planner.rs` lines
13-20; `magic_module_ids` is never read by `execute`). -/
structure MountPlan where
  overlay_ops : List OverlayOp
  magic_module_paths : List EPath
  overlay_module_ids : List String
  magic_module_ids : List String
  deriving Repr

/-- `ExecutionResult` from `src/core/executor.rs` lines 18-21. -/
structure ExecutionResult where
  overlay_module_ids : List String
  magic_module_ids : List String
  deriving Repr, DecidableEq

/-- Kernel/filesystem oracle for `execute`: whether
`overlayfs::overlayfs::mount_overlay` fails for a given op, whether the
magic-phase setup (`select_temp_dir`, `create_dir_all`) succeeds, and
whether `magic_mount::magic_mount` returns an error. -/
structure ExecOracle where
  mountFails : OverlayOp → Bool
  tempDirOk : Bool
  magicMountFails : Bool

/-- Lexicographic order on component paths, modelling `Vec<PathBuf>::sort`. -/
def pathLe : EPath → EPath → Bool
  | [], _ => true
  | _ :: _, [] => false
  | a :: as, b :: bs => if a = b then pathLe as bs else HybridUtil.strLe a b

/-- The `fallback_ids` accumulated over all failed ops
(`src/core/executor.rs` lines 154-166 and 201-203): for each lowerdir of
a failed op, the module id (pushed only under `extract_module_root`'s
`Some`, which `extract_module_id = parent.file_name` already implies). -/
def fallbackIds (plan : MountPlan) (oracle : ExecOracle) : List String :=
  (plan.overlay_ops.filter (fun op => oracle.mountFails op)).flatMap
    (fun op => op.lowerdirs.filterMap extract_module_id)

/-- The `magic_queue` after the overlay phase (`src/core/executor.rs`
lines 100, 199, 213-215): the plan's magic paths extended with each
failed op's module roots, then sorted and deduplicated. -/
def magicQueue (plan : MountPlan) (oracle : ExecOracle) : List EPath :=
  let raw := plan.magic_module_paths ++
    (plan.overlay_ops.filter (fun op => oracle.mountFails op)).flatMap
      (fun op => op.lowerdirs.filterMap extract_module_root)
  (HybridUtil.isort pathLe raw).dedup

/-- `execute` from `src/core/executor.rs` lines 99-282.  Logging is
modelled by the returned warning list (one entry per failed op, lines
148-152); mount side effects are only reflected in the oracle.  The
first component is `Ok(ExecutionResult)` or the propagated error of the
magic-phase setup. -/
def execute (plan : MountPlan) (oracle : ExecOracle) :
    Except String ExecutionResult × List String :=
  let warnings := (plan.overlay_ops.filter (fun op => oracle.mountFails op)).map
    (fun op => "OverlayFS failed for " ++ op.target)
  let removed := fallbackIds plan oracle
  let result_overlay := HybridUtil.isort HybridUtil.strLe
    ((plan.overlay_module_ids.dedup).filter (fun id => !(removed.contains id)))
  let queue := magicQueue plan oracle
  let final_magic_ids := queue.filterMap fileName
  if queue.isEmpty then
    (.ok ⟨result_overlay, (HybridUtil.isort HybridUtil.strLe final_magic_ids).dedup⟩,
      warnings)
  else if !oracle.tempDirOk then
    (.error "select_temp_dir", warnings)
  else
    let fm := if oracle.magicMountFails then [] else final_magic_ids
    (.ok ⟨result_overlay, (HybridUtil.isort HybridUtil.strLe fm).dedup⟩, warnings)

end Executor

namespace OverlayExec

/-- Mount-table events performed by `mount_overlay` and its helpers in
`src/mount/overlayfs/overlayfs.rs`, recorded as a trace.  `unmountDir`
records the flag passed to `rustix::mount::unmount` by `umount_dir`
(`src/mount/overlayfs/utils.rs` lines 102-107): `detach = false` models
`UnmountFlags::empty()` and `detach = true` would model
`UnmountFlags::DETACH`. -/
inductive Event where
  | overlayMount (dest : String) (ok : Bool)
  | bindMount (src dest : String) (ok : Bool)
  | unmountDir (path : String) (detach : Bool)
  deriving Repr, DecidableEq

/-- Filesystem oracle for `mount_overlay`: `Path::exists` and
`Path::is_dir` on the paths the child-restore logic probes. -/
structure Fs where
  pathExists : String → Bool
  isDir : String → Bool

/-- Kernel-mount oracle: whether the root `mount_overlayfs` succeeds,
whether a nested `mount_overlayfs` at a child mount point succeeds, and
whether a `bind_mount` succeeds. -/
structure MountOracle where
  rootOverlayOk : Bool
  childOverlayOk : String → Bool
  bindOk : String → String → Bool

/-- `mount_point.replacen(root, "", 1)` (`src/mount/overlayfs/overlayfs.rs`
line 239) for the mountinfo children, which all have `root` as a prefix
(character-list form, which kernel-reduces, unlike `String.isPrefixOf`). -/
def replacen1 (s pre : String) : String :=
  if pre.data.isPrefixOf s.data then String.mk (s.data.drop pre.data.length)
  else s

/-- The `lower_dirs` loop of `mount_overlay_child`
(`src/mount/overlayfs/overlayfs.rs` lines 189-198): collect the lower
directories that are directories at `relative`; an entry that exists but
is not a directory makes the whole child be abandoned (`return Ok(())`),
modelled as `Sum.inl ()`. -/
def buildLowerDirsGo (fs : Fs) (relative : String) (acc : List String) :
    List String → Sum Unit (List String)
  | [] => .inr acc
  | lower :: rest =>
      let lower_dir := lower ++ relative
      if fs.isDir lower_dir then buildLowerDirsGo fs relative (acc ++ [lower_dir]) rest
      else if fs.pathExists lower_dir then .inl ()
      else buildLowerDirsGo fs relative acc rest

/-- `mount_overlay_child` from `src/mount/overlayfs/overlayfs.rs` lines
174-207; returns the event trace and whether the child was restored
(`Ok`). -/
def mount_overlay_child (fs : Fs) (o : MountOracle) (mount_point relative : String)
    (module_roots : List String) (stock_root : String) : List Event × Bool :=
  if !(module_roots.any (fun lower => fs.pathExists (lower ++ relative))) then
    let ok := o.bindOk stock_root mount_point
    ([.bindMount stock_root mount_point ok], ok)
  else if !(fs.isDir stock_root) then ([], true)
  else
    match buildLowerDirsGo fs relative [] module_roots with
    | .inl () => ([], true)
    | .inr lower_dirs =>
        if lower_dirs.isEmpty then ([], true)
        else if o.childOverlayOk mount_point then
          ([.overlayMount mount_point true], true)
        else
          let ok := o.bindOk stock_root mount_point
          ([.overlayMount mount_point false,
            .bindMount stock_root mount_point ok], ok)

/-- `umount_dir` from `src/mount/overlayfs/utils.rs` lines 102-107:
`unmount(src, UnmountFlags::empty())` — a plain, non-detach unmount. -/
def umount_dir (path : String) : Event := .unmountDir path false

/-- The child-restore loop of `mount_overlay`
(`src/mount/overlayfs/overlayfs.rs` lines 235-253): children whose stock
path is missing are skipped; the first failing child triggers
`umount_dir(root)` followed by `bail!`. -/
def processChildren (fs : Fs) (o : MountOracle) (root : String)
    (module_roots : List String) : List String → List Event × Except String Unit
  | [] => ([], .ok ())
  | mount_point :: rest =>
      let relative := replacen1 mount_point root
      let stock_root := "." ++ relative
      if !(fs.pathExists stock_root) then
        processChildren fs o root module_roots rest
      else if (mount_overlay_child fs o mount_point relative module_roots
          stock_root).2 then
        ((mount_overlay_child fs o mount_point relative module_roots
            stock_root).1 ++
          (processChildren fs o root module_roots rest).1,
          (processChildren fs o root module_roots rest).2)
      else
        ((mount_overlay_child fs o mount_point relative module_roots
            stock_root).1 ++ [umount_dir root],
          .error ("failed child " ++ mount_point))

/-- `mount_overlay` from `src/mount/overlayfs/overlayfs.rs` lines 209-255:
the mountinfo children (given by `mountSeq`) are sorted and deduplicated,
the root overlay is mounted (failure propagates), then each child is
restored; a child failure reverts the root with `umount_dir` and
propagates.  Returns the event trace and the result. -/
def mount_overlay (fs : Fs) (o : MountOracle) (root : String)
    (module_roots : List String) (mountSeq : List String) :
    List Event × Except String Unit :=
  let seq := (HybridUtil.isort HybridUtil.strLe mountSeq).dedup
  if !o.rootOverlayOk then
    ([.overlayMount root false], .error "mount overlayfs for root failed")
  else
    (.overlayMount root true :: (processChildren fs o root module_roots seq).1,
      (processChildren fs o root module_roots seq).2)

end OverlayExec

namespace Magic

/-- `NodeFileType` from `src/mount/node.rs` lines 14-20. -/
inductive NodeFileType where
  | regularFile
  | directory
  | symlink
  | whiteout
  deriving Repr, DecidableEq

/-- A child entry of the directory node scanned by
`MagicMount::handle_directory` (`src/mount/magic.rs`): name, file type,
backing module path and the mutable `skip` flag.  The `HashMap`
iteration order is modelled by the list order. -/
structure NChild where
  name : String
  file_type : NodeFileType
  module_path : Option String
  skip : Bool
  deriving Repr, DecidableEq

/-- The directory node fields `handle_directory` reads from `self`:
`self.path`, `self.node.replace`, `self.node.module_path` and
`self.node.children`. -/
structure DirNode where
  path : String
  replace : Bool
  module_path : Option String
  children : List NChild
  deriving Repr

/-- Live-filesystem oracle for `handle_directory`: `Path::exists` for the
whiteout check, and `Path::symlink_metadata` converted through
`NodeFileType::from` for the type comparison.  Modelled from the spec
for the conversion: the `From<FileType>` impl is not present under
`src/` (`node.rs` only carries `from_file_type`); entries that are
neither file, directory nor symlink convert to `whiteout`, and `none`
models a missing live entry (`symlink_metadata` error). -/
structure LiveFs where
  pathExists : String → Bool
  symlinkMeta : String → Option NodeFileType

/-- The per-child `need` computation of `handle_directory`
(`src/mount/magic.rs` lines 319-333). -/
def childNeed (fs : LiveFs) (dirPath : String) (c : NChild) : Bool :=
  let real_path := dirPath ++ "/" ++ c.name
  match c.file_type with
  | .symlink => true
  | .whiteout => fs.pathExists real_path
  | _ =>
      match fs.symlinkMeta real_path with
      | some ft => decide (ft ≠ c.file_type) || decide (ft = NodeFileType.symlink)
      | none => true

/-- The child loop of `handle_directory` (`src/mount/magic.rs` lines
317-343): a needy child without a module source is marked `skip` and the
scan continues; a needy child with a source sets `create_tmpfs` and
breaks (children after it are left untouched). -/
def scanChildren (fs : LiveFs) (dirPath : String) :
    List NChild → Bool × List NChild
  | [] => (false, [])
  | c :: rest =>
      if childNeed fs dirPath c then
        if c.module_path.isNone then
          let r := scanChildren fs dirPath rest
          (r.1, { c with skip := true } :: r.2)
        else (true, c :: rest)
      else
        let r := scanChildren fs dirPath rest
        (r.1, c :: r.2)

/-- The `create_tmpfs` decision of `handle_directory`
(`src/mount/magic.rs` lines 315-345), returning the decision together
with the children (whose `skip` flags the scan may have set). -/
def tmpfsDecision (fs : LiveFs) (hasTmpfs : Bool) (d : DirNode) :
    Bool × List NChild :=
  let create0 := !hasTmpfs && d.replace && d.module_path.isSome
  if !hasTmpfs && !create0 then
    let r := scanChildren fs d.path d.children
    (r.1, r.2)
  else (create0, d.children)

/-- `Node` from `src/mount/node.rs` lines 36-43 as merged by
`merge_nodes`: name, file type, children map (association list in
`HashMap` order, keys distinct), module path and `replace` (the `skip`
flag is irrelevant to merging and omitted). -/
inductive MNode where
  | mk : String → NodeFileType → Option String → Bool →
      List (String × MNode) → MNode
  deriving Repr

def MNode.nodeName : MNode → String
  | .mk n _ _ _ _ => n

def MNode.ftype : MNode → NodeFileType
  | .mk _ ft _ _ _ => ft

def MNode.modulePath : MNode → Option String
  | .mk _ _ mp _ _ => mp

def MNode.replaceFlag : MNode → Bool
  | .mk _ _ _ rp _ => rp

def MNode.children : MNode → List (String × MNode)
  | .mk _ _ _ _ cs => cs

mutual

/-- `merge_nodes` from `src/mount/magic.rs` lines 159-175: if `high` has
no module path its file type, module path and replace flag are
overwritten by `low`'s, then every child of `low` is inserted into
`high`'s child map — recursively merged on an occupied name (regardless
of file types), appended on a vacant name. -/
def mergeN : MNode → MNode → MNode
  | .mk n ft mp rp cs, .mk _ ft' mp' rp' cs' =>
      if mp = none then .mk n ft' mp' rp' (insertAll cs cs')
      else .mk n ft mp rp (insertAll cs cs')
termination_by _h l => sizeOf l

/-- The `for (name, low_child) in low.children` loop of `merge_nodes`. -/
def insertAll (hs : List (String × MNode)) :
    List (String × MNode) → List (String × MNode)
  | [] => hs
  | (k, lc) :: rest => insertAll (insertOne hs k lc) rest
termination_by ls => sizeOf ls

/-- One `high.children.entry(name)` step of `merge_nodes`: occupied →
recursive merge in place, vacant → insert. -/
def insertOne (hs : List (String × MNode)) (k : String) (lc : MNode) :
    List (String × MNode) :=
  if hs.any (fun kv => kv.1 == k) then
    hs.map (fun kv => if kv.1 == k then (kv.1, mergeN kv.2 lc) else kv)
  else hs ++ [(k, lc)]
termination_by 1 + sizeOf lc

end

/-- `HashMap` lookup in a child map. -/
def lookupChild (k : String) (cs : List (String × MNode)) : Option MNode :=
  (cs.find? (fun kv => kv.1 == k)).map (·.2)

/-- The node fields observable at a path of the tree (name, file type,
module path, replace).  Two `HashMap`-backed trees are equal exactly
when `lookupFields` agrees on every path. -/
def lookupFields (t : MNode) : List String →
    Option (String × NodeFileType × Option String × Bool)
  | [] => some (t.nodeName, t.ftype, t.modulePath, t.replaceFlag)
  | k :: rest =>
      match lookupChild k t.children with
      | some c => lookupFields c rest
      | none => none

end Magic

namespace Inputs

/-- 129 lowerdirs (128 identical long module layer paths and a
distinguished 129th), as handed to `mount_overlayfs` by the executor. -/
def c1Lowers : List String :=
  List.replicate 128 "/data/adb/meta-hybrid/storage/module_aaaa/system" ++
    ["/data/adb/meta-hybrid/storage/module_zzzz/system"]

/-- Planner filesystem oracle: synced storage holds module `A` with
non-empty `vendor` and `product` layers; `/vendor` and `/product` exist
as real directories and canonicalize to themselves. -/
def c2Fs : Planner.Fs where
  pathExists := fun p => p == "/data/storage/A" || p == "/vendor" || p == "/product"
  isDir := fun p => p == "/data/storage/A/vendor" || p == "/data/storage/A/product"
    || p == "/vendor" || p == "/product"
  hasFiles := fun p => p == "/data/storage/A/vendor" || p == "/data/storage/A/product"
  isSymlink := fun _ => false
  canonicalize := fun p =>
    if p == "/vendor" then some "/vendor"
    else if p == "/product" then some "/product"
    else none

/-- A single overlay-mode module contributing to `vendor` and `product`. -/
def c2Modules : List Planner.Module :=
  [{ id := "A", mode := "overlay", source_path := "/data/adb/modules/A" }]

/-- The partition-layer map the planner builds for `c2Modules` (insertion
order: `vendor` before `product`, the target-partition scan order). -/
def c2Built : List (String × List String) :=
  Planner.buildPartitionLayers c2Fs c2Modules ["vendor", "product"] "/data/storage"

/-- Winnowing table preferring module `B` for a vendor file and module
`C` (not a contender) for a system file. -/
def c3Table : Winnow.WinnowingTable :=
  [("/vendor/lib/a.so", "B"), ("/system/etc/hosts", "C")]

/-- A conflict on the `vendor` partition whose contenders are `[B, A]`. -/
def c3Conflict1 : Winnow.ConflictDetail :=
  { partition := "vendor", relative_path := "lib/a.so",
    contending_modules := ["B", "A"] }

/-- A conflict on the `system` partition whose contenders are `[A, B]`. -/
def c3Conflict2 : Winnow.ConflictDetail :=
  { partition := "system", relative_path := "etc/hosts",
    contending_modules := ["A", "B"] }

/-- A plan whose overlay ids overlap the basenames of its magic paths
(no overlay op ever fails: the trivial oracle below). -/
def c4Plan : Executor.MountPlan :=
  { overlay_ops := [], magic_module_paths := [["mods", "A"]],
    overlay_module_ids := ["A"], magic_module_ids := [] }

/-- Oracle with no mount failures and all auxiliary steps succeeding. -/
def c4Oracle : Executor.ExecOracle :=
  { mountFails := fun _ => false, tempDirOk := true, magicMountFails := false }

/-- A plan with input-disjoint participant sets (overlay id `B`, magic
path basename `A`). -/
def c4wPlan : Executor.MountPlan :=
  { overlay_ops := [], magic_module_paths := [["mods", "A"]],
    overlay_module_ids := ["B"], magic_module_ids := [] }

/-- The `/vendor` op of module `C` (the op the oracle fails). -/
def c5OpV : Executor.OverlayOp :=
  { target := "/vendor", partition_name := "vendor",
    lowerdirs := [["mods", "C", "vendor"]] }

/-- The `/system` op of module `B` (the op that succeeds). -/
def c5OpS : Executor.OverlayOp :=
  { target := "/system", partition_name := "system",
    lowerdirs := [["mods", "B", "system"]] }

/-- Two overlay ops — `/vendor` (module `C`) fails to mount, `/system`
(module `B`) succeeds. -/
def c5Plan : Executor.MountPlan :=
  { overlay_ops := [c5OpV, c5OpS],
    magic_module_paths := [],
    overlay_module_ids := ["B", "C"], magic_module_ids := [] }

/-- Oracle failing exactly the `/vendor` op. -/
def c5Oracle : Executor.ExecOracle :=
  { mountFails := fun op => op.target == "/vendor",
    tempDirOk := true, magicMountFails := false }

/-- Overlay-exec filesystem: the stock child `./apex` exists and module
`A`'s layer contributes `/m/A/system/apex` as a directory. -/
def c6Fs : OverlayExec.Fs where
  pathExists := fun p => p == "./apex" || p == "/m/A/system/apex"
  isDir := fun p => p == "./apex" || p == "/m/A/system/apex"

/-- Mount oracle: the root overlay succeeds, but the nested child
overlay and the bind fallback both fail. -/
def c6Oracle : OverlayExec.MountOracle where
  rootOverlayOk := true
  childOverlayOk := fun _ => false
  bindOk := fun _ _ => false

/-- Magic-mount live filesystem for the directory scan: `/system/app`
has no live entries for the module children. -/
def c7Fs : Magic.LiveFs where
  pathExists := fun _ => false
  symlinkMeta := fun _ => none

/-- A needy sourceless child (its live path is missing). -/
def c7Cfg : Magic.NChild :=
  { name := "cfg", file_type := .regularFile, module_path := none,
    skip := false }

/-- A needy sourced child. -/
def c7New : Magic.NChild :=
  { name := "New", file_type := .regularFile,
    module_path := some "/m/A/system/app/New", skip := false }

/-- A directory node with the sourceless child first and the sourced
child second, both needy. -/
def c7Dir : Magic.DirNode :=
  { path := "/system/app", replace := false,
    module_path := some "/m/A/system/app",
    children := [c7Cfg, c7New] }

/-- Module `A`'s node at `f`: a regular file with a source. -/
def c8Af : Magic.MNode := .mk "f" .regularFile (some "/m/A/f") false []

/-- Module `B`'s grandchild `g`. -/
def c8g : Magic.MNode := .mk "g" .regularFile (some "/m/B/f/g") false []

/-- Module `B`'s node at `f`: a directory containing `g`. -/
def c8Bf : Magic.MNode := .mk "f" .directory (some "/m/B/f") false [("g", c8g)]

/-- Module tree `A`: a regular file `f` (with source). -/
def c8A : Magic.MNode := .mk "" .directory none false [("f", c8Af)]

/-- Module tree `B`: a directory `f` containing a file `g`. -/
def c8B : Magic.MNode := .mk "" .directory none false [("f", c8Bf)]

/-- Module `C`'s node at `vendor`: a sourceless directory (a synthetic
partition root, as `process_module` creates with `Node::new_root`). -/
def c8Cv : Magic.MNode := .mk "vendor" .directory none false []

/-- Module `D`'s node at `vendor`: a regular file with a source. -/
def c8Dv : Magic.MNode :=
  .mk "vendor" .regularFile (some "/m/D/system/vendor") false []

/-- Module tree `C`: the sourceless directory `vendor`. -/
def c8C : Magic.MNode := .mk "" .directory none false [("vendor", c8Cv)]

/-- Module tree `D`: a regular file named `vendor` (with source). -/
def c8D : Magic.MNode := .mk "" .directory none false [("vendor", c8Dv)]

/-- Child list `[a ↦ leaf]` for the commutativity witness. -/
def c8w1 : List (String × Magic.MNode) :=
  [("a", .mk "a" .regularFile (some "/m/W1/a") false [])]

/-- Child list `[b ↦ leaf]`, key-disjoint from `c8w1`. -/
def c8w2 : List (String × Magic.MNode) :=
  [("b", .mk "b" .regularFile (some "/m/W2/b") false [])]

end Inputs

namespace HybridUtil

theorem mem_insertLe {α : Type} (le : α → α → Bool) (a x : α) (l : List α) :
    x ∈ insertLe le a l ↔ x = a ∨ x ∈ l := by
  induction l with
  | nil => simp [insertLe]
  | cons b bs ih =>
      unfold insertLe
      by_cases h : le a b = true
      · rw [if_pos h]
        simp [List.mem_cons]
      · rw [if_neg h]
        simp only [List.mem_cons, ih]
        tauto

theorem mem_isort {α : Type} (le : α → α → Bool) (x : α) (l : List α) :
    x ∈ isort le l ↔ x ∈ l := by
  induction l with
  | nil => simp [isort]
  | cons a as ih => simp [isort, mem_insertLe, ih, List.mem_cons]

theorem intercalate_go_length (s : String) :
    ∀ (l : List String) (acc : String),
      (String.intercalate.go acc s l).length =
        acc.length + ((l.map String.length).sum + s.length * l.length) := by
  intro l
  induction l with
  | nil => intro acc; simp [String.intercalate.go]
  | cons a as ih =>
      intro acc
      simp only [String.intercalate.go, ih, String.length_append, List.map_cons,
        List.sum_cons, List.length_cons]
      ring

theorem length_intercalate (s a : String) (as : List String) :
    (String.intercalate s (a :: as)).length =
      a.length + ((as.map String.length).sum + s.length * as.length) := by
  simp [String.intercalate, intercalate_go_length]

end HybridUtil

namespace Winnow

/-- Unfolding lemma: `sift_conflicts` on a single conflict. -/
theorem sift_singleton_eq (c : ConflictDetail) (t : WinnowingTable) :
    sift_conflicts [c] t =
      [{ path := "/system/" ++ c.relative_path
         contenders := c.contending_modules
         selected :=
           match get_preferred_module t ("/system/" ++ c.relative_path) with
           | some forced =>
               if c.contending_modules.contains forced then forced
               else c.contending_modules.getLastD "unknown"
           | none => c.contending_modules.getLastD "unknown"
         is_forced :=
           (get_preferred_module t ("/system/" ++ c.relative_path)).isSome }] :=
  rfl

end Winnow

/-- C1: with 129 lowerdirs, `mount_overlayfs` passes 130 colon-joined
entries (the 129 lowerdirs plus the stock root) to the kernel — more
than 128 — the joined string exceeds 3000 bytes, and the last lowerdir
is not dropped: no truncation or cap exists in the source. -/
theorem mount_overlayfs_no_cap_at_129 :
    Inputs.c1Lowers.length = 129 ∧
    (Overlayfs.lowerdirEntries Inputs.c1Lowers "/system").length = 130 ∧
    ¬ (Overlayfs.lowerdirEntries Inputs.c1Lowers "/system").length ≤ 128 ∧
    "/data/adb/meta-hybrid/storage/module_zzzz/system" ∈
      Overlayfs.lowerdirEntries Inputs.c1Lowers "/system" ∧
    ¬ (Overlayfs.lowerdirConfig Inputs.c1Lowers "/system").length ≤ 3000 := by
  have h1 : Inputs.c1Lowers.length = 129 := by
    simp [Inputs.c1Lowers]
  have h2 : (Overlayfs.lowerdirEntries Inputs.c1Lowers "/system").length = 130 := by
    simp [Overlayfs.lowerdirEntries, h1]
  have hmem : "/data/adb/meta-hybrid/storage/module_zzzz/system" ∈
      Overlayfs.lowerdirEntries Inputs.c1Lowers "/system" := by
    simp [Overlayfs.lowerdirEntries, Inputs.c1Lowers]
  have hsplit : Overlayfs.lowerdirEntries Inputs.c1Lowers "/system" =
      "/data/adb/meta-hybrid/storage/module_aaaa/system" ::
        (List.replicate 127 "/data/adb/meta-hybrid/storage/module_aaaa/system" ++
          ["/data/adb/meta-hybrid/storage/module_zzzz/system", "/system"]) := by
    rw [Overlayfs.lowerdirEntries, Inputs.c1Lowers,
      show (128 : Nat) = 127 + 1 from rfl]
    rw [List.replicate_succ]
    simp
  have hA : ("/data/adb/meta-hybrid/storage/module_aaaa/system" : String).length
      = 48 := rfl
  have hZ : ("/data/adb/meta-hybrid/storage/module_zzzz/system" : String).length
      = 48 := rfl
  have hS : ("/system" : String).length = 7 := rfl
  have hsep : (":" : String).length = 1 := rfl
  have hlen : (Overlayfs.lowerdirConfig Inputs.c1Lowers "/system").length
      = 6328 := by
    rw [Overlayfs.lowerdirConfig, hsplit, HybridUtil.length_intercalate]
    simp [List.map_append, List.map_replicate, List.sum_append,
      List.sum_replicate, List.length_append, List.length_replicate,
      hA, hZ, hS, hsep]
  exact ⟨h1, h2, by omega, hmem, by omega⟩

/-- C1 (amended): `mount_overlayfs` enforces no lowerdir cap: the
`lowerdir=` option it passes to the kernel always consists of all given
lowerdirs followed by the stock root (`|lower_dirs| + 1` entries, every
lowerdir included, the last one in particular), with no truncation and
no limit warning. -/
theorem mount_overlayfs_passes_all_lowerdirs (lower_dirs : List String)
    (lowest : String) :
    (Overlayfs.lowerdirEntries lower_dirs lowest).length = lower_dirs.length + 1 ∧
    (∀ d, d ∈ lower_dirs → d ∈ Overlayfs.lowerdirEntries lower_dirs lowest) ∧
    lowest ∈ Overlayfs.lowerdirEntries lower_dirs lowest ∧
    Overlayfs.lowerdirConfig lower_dirs lowest =
      String.intercalate ":" (lower_dirs ++ [lowest]) := by
  refine ⟨?_, ?_, ?_, rfl⟩
  · simp [Overlayfs.lowerdirEntries]
  · intro d hd
    simp [Overlayfs.lowerdirEntries, List.mem_append]
    exact Or.inl hd
  · simp [Overlayfs.lowerdirEntries]

/-- C2 (counterexample): `generate` applies no sort to `overlay_ops`: it
emits them in the `HashMap` iteration order of `partition_layers`.  For
a module layering `vendor` and `product`, the insertion-order iteration
(a legitimate `HashMap` order) yields targets `[/vendor, /product]`,
which is not ascending; and the reversed iteration (equally legitimate,
a permutation of the same map) yields a different op order, so two runs
need not agree. -/
theorem generate_ops_not_sorted :
    Inputs.c2Built = [("vendor", ["/data/storage/A/vendor"]),
      ("product", ["/data/storage/A/product"])] ∧
    (Planner.overlayOpsOfIteration Inputs.c2Fs Inputs.c2Built).map
        (fun op => op.target) = ["/vendor", "/product"] ∧
    ¬ List.Pairwise (fun a b => HybridUtil.strLe a.target b.target = true)
      (Planner.overlayOpsOfIteration Inputs.c2Fs Inputs.c2Built) ∧
    Inputs.c2Built.reverse.Perm Inputs.c2Built ∧
    Planner.overlayOpsOfIteration Inputs.c2Fs Inputs.c2Built.reverse ≠
      Planner.overlayOpsOfIteration Inputs.c2Fs Inputs.c2Built := by
  refine ⟨by decide, by decide, ?_, by decide, by decide⟩
  intro h
  have h2 : (Planner.overlayOpsOfIteration Inputs.c2Fs Inputs.c2Built).map
      (fun op => op.target) = ["/vendor", "/product"] := by decide
  rw [show Planner.overlayOpsOfIteration Inputs.c2Fs Inputs.c2Built =
    [⟨"/vendor", ["/data/storage/A/vendor"]⟩,
     ⟨"/product", ["/data/storage/A/product"]⟩] from by decide] at h
  have := List.rel_of_pairwise_cons h (List.mem_singleton.mpr rfl)
  exact absurd this (by decide)

/-- C2 (amended): the planner emits `overlay_ops` in the hash-map
iteration order of `partition_layers`, which Rust leaves unspecified, so
the op list is determined by the inputs only up to permutation: any two
iteration orders of the same built map produce op lists that are
permutations of each other (same ops, order not guaranteed, not
necessarily sorted by target). -/
theorem generate_ops_perm_stable (fs : Planner.Fs)
    (built iter1 iter2 : List (String × List String))
    (h1 : iter1.Perm built) (h2 : iter2.Perm built) :
    (Planner.overlayOpsOfIteration fs iter1).Perm
      (Planner.overlayOpsOfIteration fs iter2) :=
  List.Perm.filterMap _ (h1.trans h2.symm)

/-- C2 (witness for the amended theorem): the insertion-order iteration
and its reverse produce permuted op lists for the concrete planner
inputs. -/
theorem generate_ops_perm_stable_witness :
    (Planner.overlayOpsOfIteration Inputs.c2Fs Inputs.c2Built).Perm
      (Planner.overlayOpsOfIteration Inputs.c2Fs Inputs.c2Built.reverse) :=
  generate_ops_perm_stable Inputs.c2Fs Inputs.c2Built Inputs.c2Built
    Inputs.c2Built.reverse (List.Perm.refl _) (by decide)

/-- C3 (counterexample): `sift_conflicts` does not form the lookup key
from the conflict's own partition.  For a `vendor` conflict whose table
entry `/vendor/lib/a.so → B` names a contender, the code looks up
`/system/lib/a.so` instead, misses, and selects the last contender `A`,
not `B`; and for a conflict whose table entry names a module that is not
a contender, the last contender is selected but `is_forced` is `true`,
not `false`. -/
theorem sift_conflicts_counterexample :
    Winnow.get_preferred_module Inputs.c3Table "/vendor/lib/a.so" = some "B" ∧
    "B" ∈ Inputs.c3Conflict1.contending_modules ∧
    Winnow.get_preferred_module Inputs.c3Table "/system/etc/hosts" = some "C" ∧
    "C" ∉ Inputs.c3Conflict2.contending_modules ∧
    (Winnow.sift_conflicts [Inputs.c3Conflict1, Inputs.c3Conflict2]
        Inputs.c3Table).map (fun r => (r.selected, r.is_forced)) =
      [("A", false), ("B", true)] := by
  decide

/-- C3 (amended): for every conflict, `sift_conflicts` processes the
list elementwise; the winnowing-table lookup key is always
`/system/<relative>` regardless of the conflict's own partition (the
`partition` field is ignored); if the table names a preferred module at
that key and it is among the contenders, that module is selected;
otherwise the last contender (default `"unknown"`) is selected; and
`is_forced` is true exactly when the table lookup returned a module,
whether or not it is a contender. -/
theorem sift_conflicts_characterization (c : Winnow.ConflictDetail)
    (cs : List Winnow.ConflictDetail) (t : Winnow.WinnowingTable) :
    Winnow.sift_conflicts (c :: cs) t =
      Winnow.sift_conflicts [c] t ++ Winnow.sift_conflicts cs t ∧
    (∀ p', Winnow.sift_conflicts [{ c with partition := p' }] t =
      Winnow.sift_conflicts [c] t) ∧
    ∃ r, Winnow.sift_conflicts [c] t = [r] ∧
      r.path = "/system/" ++ c.relative_path ∧
      r.contenders = c.contending_modules ∧
      r.is_forced = (Winnow.get_preferred_module t r.path).isSome ∧
      (∀ f, Winnow.get_preferred_module t r.path = some f →
        (f ∈ c.contending_modules → r.selected = f) ∧
        (f ∉ c.contending_modules →
          r.selected = c.contending_modules.getLastD "unknown")) ∧
      (Winnow.get_preferred_module t r.path = none →
        r.selected = c.contending_modules.getLastD "unknown") := by
  refine ⟨rfl, fun p' => rfl, ?_⟩
  rcases hcase : Winnow.get_preferred_module t ("/system/" ++ c.relative_path)
    with _ | f₀
  · refine ⟨⟨"/system/" ++ c.relative_path, c.contending_modules,
      c.contending_modules.getLastD "unknown", false⟩, ?_, rfl, rfl, ?_, ?_, ?_⟩
    · rw [Winnow.sift_singleton_eq, hcase]
      rfl
    · simp [hcase]
    · intro f hf
      rw [hcase] at hf
      cases hf
    · intro _
      rfl
  · by_cases hm : f₀ ∈ c.contending_modules
    · have hcont : c.contending_modules.contains f₀ = true :=
        List.elem_eq_true_of_mem hm
      refine ⟨⟨"/system/" ++ c.relative_path, c.contending_modules, f₀, true⟩,
        ?_, rfl, rfl, ?_, ?_, ?_⟩
      · rw [Winnow.sift_singleton_eq, hcase]
        simp only [hcont]
        rfl
      · simp [hcase]
      · intro f hf
        rw [hcase] at hf
        injection hf with h
        subst h
        exact ⟨fun _ => rfl, fun hn => absurd hm hn⟩
      · intro h0
        rw [hcase] at h0
        cases h0
    · have hcont : c.contending_modules.contains f₀ = false := by
        rw [Bool.eq_false_iff]
        intro hx
        exact hm (List.mem_of_elem_eq_true hx)
      refine ⟨⟨"/system/" ++ c.relative_path, c.contending_modules,
        c.contending_modules.getLastD "unknown", true⟩, ?_, rfl, rfl, ?_, ?_, ?_⟩
      · rw [Winnow.sift_singleton_eq, hcase]
        simp only [hcont]
        rfl
      · simp [hcase]
      · intro f hf
        rw [hcase] at hf
        injection hf with h
        subst h
        exact ⟨fun hmem => absurd hmem hm, fun _ => rfl⟩
      · intro _
        rfl

/-- C3 (witness for the amended theorem): instantiating the
characterization at the `system/etc/hosts` conflict whose table entry
names non-contender `C` selects the last contender `B` with
`is_forced = true`. -/
theorem sift_conflicts_characterization_witness :
    ∃ r, Winnow.sift_conflicts [Inputs.c3Conflict2] Inputs.c3Table = [r] ∧
      r.selected = "B" ∧ r.is_forced = true := by
  obtain ⟨-, -, r, hsift, hpath, -, hforced, hsome, -⟩ :=
    sift_conflicts_characterization Inputs.c3Conflict2 [] Inputs.c3Table
  have hlook : Winnow.get_preferred_module Inputs.c3Table r.path = some "C" := by
    rw [hpath]
    decide
  refine ⟨r, hsift, ?_, ?_⟩
  · have := (hsome "C" hlook).2 (by decide)
    simpa using this
  · rw [hforced, hlook]
    rfl

/-- Case analysis of `execute`: its warning list, the shape of the
overlay ids and magic ids of an `Ok` result, and the existence of an
`Ok` result when the magic-phase setup succeeds. -/
theorem Executor.execute_cases (plan : Executor.MountPlan)
    (oracle : Executor.ExecOracle) :
    (Executor.execute plan oracle).2 =
      (plan.overlay_ops.filter (fun op => oracle.mountFails op)).map
        (fun op => "OverlayFS failed for " ++ op.target) ∧
    (∀ res, (Executor.execute plan oracle).1 = .ok res →
      res.overlay_module_ids = HybridUtil.isort HybridUtil.strLe
        ((plan.overlay_module_ids.dedup).filter
          (fun id => !((Executor.fallbackIds plan oracle).contains id))) ∧
      (res.magic_module_ids = [] ∨ res.magic_module_ids =
        (HybridUtil.isort HybridUtil.strLe
          ((Executor.magicQueue plan oracle).filterMap Executor.fileName)).dedup)) ∧
    (oracle.tempDirOk = true → ∃ res, (Executor.execute plan oracle).1 = .ok res) := by
  by_cases h1 : (Executor.magicQueue plan oracle).isEmpty
  · refine ⟨by simp [Executor.execute, h1], ?_, ?_⟩
    · intro res hres
      simp only [Executor.execute, h1, if_pos] at hres
      injection hres with h
      subst h
      exact ⟨rfl, Or.inr rfl⟩
    · intro _
      cases hE : (Executor.execute plan oracle).1 with
      | ok r => exact ⟨r, rfl⟩
      | error e =>
          exfalso
          simp [Executor.execute, h1] at hE
  · by_cases h2 : oracle.tempDirOk
    · by_cases h3 : oracle.magicMountFails
      · refine ⟨by simp [Executor.execute, h1, h2, h3], ?_, ?_⟩
        · intro res hres
          simp only [Executor.execute, h1, h2, h3, Bool.not_true,
            if_neg, if_pos, Bool.false_eq_true, ite_false, ite_true] at hres
          injection hres with h
          subst h
          exact ⟨rfl, Or.inl (by simp [HybridUtil.isort])⟩
        · intro _
          cases hE : (Executor.execute plan oracle).1 with
          | ok r => exact ⟨r, rfl⟩
          | error e =>
              exfalso
              simp [Executor.execute, h1, h2, h3] at hE
      · refine ⟨by simp [Executor.execute, h1, h2, h3], ?_, ?_⟩
        · intro res hres
          simp only [Executor.execute, h1, h2, h3, Bool.not_true,
            if_neg, if_pos, Bool.false_eq_true, ite_false, ite_true] at hres
          injection hres with h
          subst h
          exact ⟨rfl, Or.inr rfl⟩
        · intro _
          cases hE : (Executor.execute plan oracle).1 with
          | ok r => exact ⟨r, rfl⟩
          | error e =>
              exfalso
              simp [Executor.execute, h1, h2, h3] at hE
    · refine ⟨by simp [Executor.execute, h1, h2], ?_, ?_⟩
      · intro res hres
        simp only [Executor.execute, h1, h2] at hres
        simp at hres
      · intro h2'
        exact absurd h2' h2

/-- C4 (counterexample): `execute` does not reconcile an arbitrary plan
into disjoint participant sets — for a plan whose overlay ids already
overlap the basenames of its magic paths, module id `A` ends up in both
`overlay_module_ids` and `magic_module_ids`. -/
theorem execute_not_disjoint_counterexample :
    ∃ res, (Executor.execute Inputs.c4Plan Inputs.c4Oracle).1 = .ok res ∧
      "A" ∈ res.overlay_module_ids ∧ "A" ∈ res.magic_module_ids := by
  refine ⟨⟨["A"], ["A"]⟩, rfl, by decide, by decide⟩

/-- C4 (amended): whenever the input plan's participant sets are
disjoint at the interface `execute` consumes — no overlay module id
equals the basename of a magic module path, which the planner
guarantees since overlay and magic classification of a module are
mutually exclusive — the `ExecutionResult` has disjoint id sets: the
executor's overlay-failure reclassification removes exactly the ids it
adds to the magic side. -/
theorem execute_result_disjoint (plan : Executor.MountPlan)
    (oracle : Executor.ExecOracle) (res : Executor.ExecutionResult)
    (warns : List String)
    (hdisj : ∀ id ∈ plan.overlay_module_ids, ∀ p ∈ plan.magic_module_paths,
      Executor.fileName p ≠ some id)
    (hexec : Executor.execute plan oracle = (.ok res, warns)) :
    ∀ id ∈ res.overlay_module_ids, id ∉ res.magic_module_ids := by
  obtain ⟨-, hok, -⟩ := Executor.execute_cases plan oracle
  obtain ⟨h1, h2⟩ := hok res (by rw [hexec])
  intro id hid hmag
  rw [h1, HybridUtil.mem_isort, List.mem_filter, List.mem_dedup] at hid
  obtain ⟨hidin, hnc⟩ := hid
  rcases h2 with hm | hm
  · rw [hm] at hmag
    cases hmag
  · rw [hm, List.mem_dedup, HybridUtil.mem_isort, List.mem_filterMap] at hmag
    obtain ⟨p, hp, hpid⟩ := hmag
    rw [Executor.magicQueue] at hp
    simp only [List.mem_dedup, HybridUtil.mem_isort, List.mem_append] at hp
    rcases hp with h | h
    · exact hdisj id hidin p h hpid
    · rw [List.mem_flatMap] at h
      obtain ⟨op, hop, hl⟩ := h
      rw [List.mem_filterMap] at hl
      obtain ⟨l, hlin, hle⟩ := hl
      have hmid : Executor.extract_module_id l = some id := by
        rw [Executor.extract_module_id]
        rw [Executor.extract_module_root] at hle
        rw [hle, Option.some_bind]
        exact hpid
      have hin : id ∈ Executor.fallbackIds plan oracle := by
        rw [Executor.fallbackIds, List.mem_flatMap]
        exact ⟨op, hop, List.mem_filterMap.mpr ⟨l, hlin, hmid⟩⟩
      simp [hin] at hnc

/-- C4 (witness for the amended theorem): for a plan with overlay id `B`
and magic path basename `A`, the amended disjointness theorem applies
and keeps `B` out of the magic ids. -/
theorem execute_result_disjoint_witness :
    "B" ∉ (⟨["B"], ["A"]⟩ : Executor.ExecutionResult).magic_module_ids :=
  execute_result_disjoint Inputs.c4wPlan Inputs.c4Oracle ⟨["B"], ["A"]⟩ []
    (by decide) rfl "B" (by decide)

/-- C5: when the root overlay mount of an `OverlayOp` fails, `execute`
emits a warning for that op, removes every contributing module id (the
lowerdir's parent-directory basename) from the overlay id set, adds
each lowerdir's module root to the magic-mount queue, keeps processing
the remaining ops (a module of a non-failed op that is in no failed
op's fallback set stays in the overlay ids), and still returns `Ok`
(provided the magic-phase temp-dir setup, an unrelated step, succeeds). -/
theorem execute_mount_failure_degrades (plan : Executor.MountPlan)
    (oracle : Executor.ExecOracle) (htemp : oracle.tempDirOk = true) :
    ∃ res warns, Executor.execute plan oracle = (.ok res, warns) ∧
      (∀ op ∈ plan.overlay_ops, oracle.mountFails op = true →
        ("OverlayFS failed for " ++ op.target) ∈ warns ∧
        (∀ l ∈ op.lowerdirs, ∀ id, Executor.extract_module_id l = some id →
          id ∉ res.overlay_module_ids) ∧
        (∀ l ∈ op.lowerdirs, ∀ r, Executor.extract_module_root l = some r →
          r ∈ Executor.magicQueue plan oracle)) ∧
      (∀ op ∈ plan.overlay_ops, oracle.mountFails op = false →
        ∀ id ∈ plan.overlay_module_ids,
          id ∉ Executor.fallbackIds plan oracle →
          id ∈ res.overlay_module_ids) := by
  obtain ⟨hsnd, hok, hex⟩ := Executor.execute_cases plan oracle
  obtain ⟨res, hfst⟩ := hex htemp
  obtain ⟨hro, -⟩ := hok res hfst
  refine ⟨res, (Executor.execute plan oracle).2, ?_, ?_, ?_⟩
  · rw [← hfst]
  · intro op hop hfail
    refine ⟨?_, ?_, ?_⟩
    · rw [hsnd]
      exact List.mem_map.mpr ⟨op, List.mem_filter.mpr ⟨hop, hfail⟩, rfl⟩
    · intro l hl id hid hmem
      rw [hro, HybridUtil.mem_isort, List.mem_filter] at hmem
      have hfb : id ∈ Executor.fallbackIds plan oracle := by
        rw [Executor.fallbackIds, List.mem_flatMap]
        exact ⟨op, List.mem_filter.mpr ⟨hop, hfail⟩,
          List.mem_filterMap.mpr ⟨l, hl, hid⟩⟩
      simp [hfb] at hmem
    · intro l hl r hr
      rw [Executor.magicQueue]
      simp only [List.mem_dedup, HybridUtil.mem_isort, List.mem_append]
      right
      rw [List.mem_flatMap]
      exact ⟨op, List.mem_filter.mpr ⟨hop, hfail⟩,
        List.mem_filterMap.mpr ⟨l, hl, hr⟩⟩
  · intro op hop hnofail id hid hnfb
    rw [hro, HybridUtil.mem_isort, List.mem_filter, List.mem_dedup]
    refine ⟨hid, ?_⟩
    simp [hnfb]

/-- C5 (witness): for the two-op plan where `/vendor` (module `C`)
fails and `/system` (module `B`) succeeds, `execute` returns `Ok`, warns
about `/vendor`, drops `C` from the overlay ids, queues `C`'s module
root for magic mount, and keeps `B`. -/
theorem execute_mount_failure_degrades_witness :
    ∃ res warns,
      Executor.execute Inputs.c5Plan Inputs.c5Oracle = (.ok res, warns) ∧
      "OverlayFS failed for /vendor" ∈ warns ∧
      "C" ∉ res.overlay_module_ids ∧
      ["mods", "C"] ∈ Executor.magicQueue Inputs.c5Plan Inputs.c5Oracle ∧
      "B" ∈ res.overlay_module_ids := by
  obtain ⟨res, warns, hexec, hfail, hcont⟩ :=
    execute_mount_failure_degrades Inputs.c5Plan Inputs.c5Oracle rfl
  have hopV : Inputs.c5OpV ∈ Inputs.c5Plan.overlay_ops := by decide
  have hopS : Inputs.c5OpS ∈ Inputs.c5Plan.overlay_ops := by decide
  obtain ⟨hwarn, hdrop, hqueue⟩ := hfail _ hopV (by decide)
  refine ⟨res, warns, hexec, hwarn, ?_, ?_, ?_⟩
  · exact hdrop ["mods", "C", "vendor"] (by decide) "C" (by decide)
  · exact hqueue ["mods", "C", "vendor"] (by decide) ["mods", "C"] (by decide)
  · exact hcont _ hopS (by decide) "B" (by decide) (by decide)

/-- Helper: whenever the child-restore loop ends in an error, its event
trace ends with the plain (non-detach) unmount of the root. -/
theorem OverlayExec.processChildren_error_getLast (fs : OverlayExec.Fs)
    (o : OverlayExec.MountOracle) (root : String) (roots : List String) :
    ∀ (l : List String) (e : String),
      (OverlayExec.processChildren fs o root roots l).2 = .error e →
      (OverlayExec.processChildren fs o root roots l).1.getLast? =
        some (.unmountDir root false) := by
  intro l
  induction l with
  | nil =>
      intro e h
      simp [OverlayExec.processChildren] at h
  | cons mp rest ih =>
      intro e h
      by_cases h1 : fs.pathExists ("." ++ OverlayExec.replacen1 mp root)
      · by_cases h2 : (OverlayExec.mount_overlay_child fs o mp
            (OverlayExec.replacen1 mp root) roots
            ("." ++ OverlayExec.replacen1 mp root)).2
        · simp only [OverlayExec.processChildren, h1, h2, Bool.not_true,
            Bool.false_eq_true, if_false, if_true] at h ⊢
          rw [List.getLast?_append, ih e h]
          rfl
        · simp only [OverlayExec.processChildren, h1, h2, Bool.not_true,
            Bool.false_eq_true, if_false, if_true] at h ⊢
          exact List.getLast?_concat _
      · simp only [OverlayExec.processChildren, h1, Bool.not_false,
          if_true] at h ⊢
        exact ih e h

/-- Helper: `mount_overlay_child` emits only overlay/bind events — never
any unmount. -/
theorem OverlayExec.mount_overlay_child_no_unmount (fs : OverlayExec.Fs)
    (o : OverlayExec.MountOracle) (mp rel stock : String)
    (roots : List String) (p : String) (b : Bool) :
    OverlayExec.Event.unmountDir p b ∉
      (OverlayExec.mount_overlay_child fs o mp rel roots stock).1 := by
  unfold OverlayExec.mount_overlay_child
  split
  · simp
  · split
    · simp
    · split
      · simp
      · split
        · simp
        · split
          · simp
          · simp

/-- Helper: the child-restore loop never emits a detach unmount (its
only unmount event is the plain revert of the root). -/
theorem OverlayExec.processChildren_no_detach (fs : OverlayExec.Fs)
    (o : OverlayExec.MountOracle) (root : String) (roots : List String) :
    ∀ (l : List String) (p : String),
      OverlayExec.Event.unmountDir p true ∉
        (OverlayExec.processChildren fs o root roots l).1 := by
  intro l
  induction l with
  | nil =>
      intro p
      simp [OverlayExec.processChildren]
  | cons mp rest ih =>
      intro p
      by_cases h1 : fs.pathExists ("." ++ OverlayExec.replacen1 mp root)
      · by_cases h2 : (OverlayExec.mount_overlay_child fs o mp
            (OverlayExec.replacen1 mp root) roots
            ("." ++ OverlayExec.replacen1 mp root)).2
        · simp only [OverlayExec.processChildren, h1, h2, Bool.not_true,
            Bool.false_eq_true, if_false, if_true]
          rw [List.mem_append]
          rintro (hc | hr)
          · exact OverlayExec.mount_overlay_child_no_unmount fs o mp _ _ roots
              p true hc
          · exact ih p hr
        · simp only [OverlayExec.processChildren, h1, h2, Bool.not_true,
            Bool.false_eq_true, if_false, if_true]
          rw [List.mem_append]
          rintro (hc | hr)
          · exact OverlayExec.mount_overlay_child_no_unmount fs o mp _ _ roots
              p true hc
          · simp [OverlayExec.umount_dir] at hr
      · simp only [OverlayExec.processChildren, h1, Bool.not_false, if_true]
        exact ih p

/-- C6 (counterexample): with the root overlay mounted and a child whose
nested overlay and bind fallback both fail, `mount_overlay` reverts the
root with `umount_dir`, which passes `UnmountFlags::empty()` — a plain
unmount, recorded as `unmountDir "/system" false` — and never a detach
unmount, before propagating the error. -/
theorem mount_overlay_revert_uses_plain_unmount :
    (OverlayExec.mount_overlay Inputs.c6Fs Inputs.c6Oracle "/system"
        ["/m/A/system"] ["/system/apex"]).1 =
      [.overlayMount "/system" true, .overlayMount "/system/apex" false,
       .bindMount "./apex" "/system/apex" false,
       .unmountDir "/system" false] ∧
    (OverlayExec.mount_overlay Inputs.c6Fs Inputs.c6Oracle "/system"
        ["/m/A/system"] ["/system/apex"]).2 =
      .error "failed child /system/apex" ∧
    OverlayExec.Event.unmountDir "/system" true ∉
      (OverlayExec.mount_overlay Inputs.c6Fs Inputs.c6Oracle "/system"
        ["/m/A/system"] ["/system/apex"]).1 := by
  refine ⟨rfl, rfl, by decide⟩

/-- C6 (amended): if the root overlay succeeded and restoring some
pre-existing child mount fails (through the nested overlay and the bind
fallback both failing, or the lone bind failing), the root mount is
reverted with a plain — not detach — unmount before the error is
propagated: the trace opens with the successful root overlay, ends with
`unmountDir root false`, and contains no detach unmount. -/
theorem mount_overlay_revert_on_child_failure (fs : OverlayExec.Fs)
    (o : OverlayExec.MountOracle) (root : String) (roots : List String)
    (mountSeq : List String) (e : String)
    (hroot : o.rootOverlayOk = true)
    (hfail : (OverlayExec.mount_overlay fs o root roots mountSeq).2 =
      .error e) :
    (OverlayExec.mount_overlay fs o root roots mountSeq).1.head? =
      some (.overlayMount root true) ∧
    (OverlayExec.mount_overlay fs o root roots mountSeq).1.getLast? =
      some (.unmountDir root false) ∧
    ∀ p, OverlayExec.Event.unmountDir p true ∉
      (OverlayExec.mount_overlay fs o root roots mountSeq).1 := by
  simp only [OverlayExec.mount_overlay, hroot, Bool.not_true,
    Bool.false_eq_true, if_false] at hfail ⊢
  refine ⟨rfl, ?_, ?_⟩
  · rw [show OverlayExec.Event.overlayMount root true ::
        (OverlayExec.processChildren fs o root roots
          ((HybridUtil.isort HybridUtil.strLe mountSeq).dedup)).1 =
      [OverlayExec.Event.overlayMount root true] ++
        (OverlayExec.processChildren fs o root roots
          ((HybridUtil.isort HybridUtil.strLe mountSeq).dedup)).1 from rfl]
    rw [List.getLast?_append,
      OverlayExec.processChildren_error_getLast fs o root roots _ e hfail]
    rfl
  · intro p
    rw [List.mem_cons]
    rintro (hh | ht)
    · cases hh
    · exact OverlayExec.processChildren_no_detach fs o root roots _ p ht

/-- C6 (witness for the amended theorem): at the concrete
failing-child scenario the amended theorem yields the plain-unmount
revert as the final event. -/
theorem mount_overlay_revert_on_child_failure_witness :
    (OverlayExec.mount_overlay Inputs.c6Fs Inputs.c6Oracle "/system"
        ["/m/A/system"] ["/system/apex"]).1.getLast? =
      some (.unmountDir "/system" false) :=
  (mount_overlay_revert_on_child_failure Inputs.c6Fs Inputs.c6Oracle
    "/system" ["/m/A/system"] ["/system/apex"]
    "failed child /system/apex" rfl rfl).2.1

/-- Helper: `childNeed` does not read the `skip` flag. -/
theorem Magic.childNeed_skip (fs : Magic.LiveFs) (dirPath : String)
    (c : Magic.NChild) :
    Magic.childNeed fs dirPath { c with skip := true } =
      Magic.childNeed fs dirPath c :=
  rfl

/-- Helper: the scan flag is set iff some child is needy and has a
module source (regardless of the break). -/
theorem Magic.scan_fst (fs : Magic.LiveFs) (dirPath : String) :
    ∀ l : List Magic.NChild,
      ((Magic.scanChildren fs dirPath l).1 = true ↔
        ∃ c ∈ l, Magic.childNeed fs dirPath c = true ∧
          c.module_path.isSome = true) := by
  intro l
  induction l with
  | nil => simp [Magic.scanChildren]
  | cons c rest ih =>
      by_cases hn : Magic.childNeed fs dirPath c = true
      · by_cases hs : c.module_path.isNone
        · have hsome : c.module_path.isSome = false := by
            cases hmp : c.module_path with
            | none => rfl
            | some v => rw [hmp] at hs; cases hs
          simp only [Magic.scanChildren, hn, hs, if_true, ih]
          constructor
          · rintro ⟨c', h1, h2⟩
            exact ⟨c', List.mem_cons_of_mem _ h1, h2⟩
          · rintro ⟨c', h1, h2⟩
            rcases List.mem_cons.mp h1 with rfl | h1'
            · rw [hsome] at h2
              cases h2.2
            · exact ⟨c', h1', h2⟩
        · have hsome : c.module_path.isSome = true := by
            cases hmp : c.module_path with
            | none => rw [hmp] at hs; exact absurd rfl hs
            | some v => rfl
          simp only [Magic.scanChildren, hn, hs, if_true, Bool.false_eq_true,
            if_false]
          constructor
          · intro _
            exact ⟨c, List.mem_cons_self c rest, hn, hsome⟩
          · intro _
            trivial
      · simp only [Magic.scanChildren, hn, Bool.false_eq_true, if_false, ih]
        constructor
        · rintro ⟨c', h1, h2⟩
          exact ⟨c', List.mem_cons_of_mem _ h1, h2⟩
        · rintro ⟨c', h1, h2⟩
          rcases List.mem_cons.mp h1 with rfl | h1'
          · exact absurd h2.1 hn
          · exact ⟨c', h1', h2⟩

/-- Helper: any child marked `skip` by the scan is needy and sourceless
(when no input child was already marked). -/
theorem Magic.scan_skipped (fs : Magic.LiveFs) (dirPath : String) :
    ∀ l : List Magic.NChild, (∀ c ∈ l, c.skip = false) →
      ∀ c' ∈ (Magic.scanChildren fs dirPath l).2, c'.skip = true →
        c'.module_path = none ∧ Magic.childNeed fs dirPath c' = true := by
  intro l
  induction l with
  | nil =>
      intro _ c' h
      simp [Magic.scanChildren] at h
  | cons c rest ih =>
      intro hskip c' hmem hskip'
      have hskipc := hskip c (List.mem_cons_self c rest)
      have hskiprest : ∀ x ∈ rest, x.skip = false := fun x hx =>
        hskip x (List.mem_cons_of_mem _ hx)
      by_cases hn : Magic.childNeed fs dirPath c = true
      · by_cases hs : c.module_path.isNone
        · simp only [Magic.scanChildren, hn, hs, if_true] at hmem
          rcases List.mem_cons.mp hmem with rfl | h1'
          · refine ⟨?_, ?_⟩
            · cases hmp : c.module_path with
              | none => rfl
              | some v => rw [hmp] at hs; cases hs
            · rw [Magic.childNeed_skip]
              exact hn
          · exact ih hskiprest c' h1' hskip'
        · simp only [Magic.scanChildren, hn, hs, if_true, Bool.false_eq_true,
            if_false] at hmem
          rcases List.mem_cons.mp hmem with rfl | h1'
          · rw [hskipc] at hskip'
            cases hskip'
          · rw [hskiprest c' h1'] at hskip'
            cases hskip'
      · simp only [Magic.scanChildren, hn, Bool.false_eq_true, if_false]
          at hmem
        rcases List.mem_cons.mp hmem with rfl | h1'
        · rw [hskipc] at hskip'
          cases hskip'
        · exact ih hskiprest c' h1' hskip'

/-- Helper: when the scan decides no tmpfs is needed, every needy child
has been marked `skip`. -/
theorem Magic.scan_complete (fs : Magic.LiveFs) (dirPath : String) :
    ∀ l : List Magic.NChild, (Magic.scanChildren fs dirPath l).1 = false →
      ∀ c' ∈ (Magic.scanChildren fs dirPath l).2,
        Magic.childNeed fs dirPath c' = true → c'.skip = true := by
  intro l
  induction l with
  | nil =>
      intro _ c' h
      simp [Magic.scanChildren] at h
  | cons c rest ih =>
      intro hfst c' hmem hneed
      by_cases hn : Magic.childNeed fs dirPath c = true
      · by_cases hs : c.module_path.isNone
        · simp only [Magic.scanChildren, hn, hs, if_true] at hfst hmem
          rcases List.mem_cons.mp hmem with rfl | h1'
          · rfl
          · exact ih hfst c' h1' hneed
        · simp only [Magic.scanChildren, hn, hs, if_true, Bool.false_eq_true,
            if_false] at hfst
          cases hfst
      · simp only [Magic.scanChildren, hn, Bool.false_eq_true, if_false]
          at hfst hmem
        rcases List.mem_cons.mp hmem with rfl | h1'
        · exact absurd hneed hn
        · exact ih hfst c' h1' hneed

/-- C7: for a directory node not already inside a tmpfs interposer,
`handle_directory` creates a new tmpfs iff the directory has
`replace = true` with a module source, or some child **with a module
source** is needy — a symlink, a whiteout whose live path exists, a
child whose file type differs from the live entry of the same name, or
a child with no live entry; a needy child lacking a module source never
triggers a tmpfs and is instead marked `skip` when the scan reaches it
(in particular, whenever no tmpfs is created every needy child has been
marked `skip`, and every child the scan marked is needy and
sourceless). -/
theorem handle_directory_tmpfs_iff (fs : Magic.LiveFs) (d : Magic.DirNode)
    (hskip : ∀ c ∈ d.children, c.skip = false) :
    ((Magic.tmpfsDecision fs false d).1 = true ↔
      (d.replace = true ∧ d.module_path.isSome = true) ∨
      ∃ c ∈ d.children, Magic.childNeed fs d.path c = true ∧
        c.module_path.isSome = true) ∧
    (∀ c' ∈ (Magic.tmpfsDecision fs false d).2, c'.skip = true →
      c'.module_path = none ∧ Magic.childNeed fs d.path c' = true) ∧
    ((Magic.tmpfsDecision fs false d).1 = false →
      ∀ c' ∈ (Magic.tmpfsDecision fs false d).2,
        Magic.childNeed fs d.path c' = true → c'.skip = true) := by
  by_cases h0 : d.replace && d.module_path.isSome
  · have h0' : (d.replace = true ∧ d.module_path.isSome = true) :=
      ⟨(Bool.and_eq_true _ _ ▸ h0).1, (Bool.and_eq_true _ _ ▸ h0).2⟩
    refine ⟨?_, ?_, ?_⟩
    · simp only [Magic.tmpfsDecision, Bool.not_false, Bool.true_and, h0,
        Bool.not_true, Bool.false_eq_true, if_false, false_and]
      exact ⟨fun _ => Or.inl h0', fun _ => trivial⟩
    · intro c' hmem hsk
      simp only [Magic.tmpfsDecision, Bool.not_false, Bool.true_and, h0,
        Bool.not_true, Bool.false_eq_true, if_false] at hmem
      rw [hskip c' hmem] at hsk
      cases hsk
    · intro hfalse
      simp only [Magic.tmpfsDecision, Bool.not_false, Bool.true_and, h0,
        Bool.not_true, Bool.false_eq_true, if_false] at hfalse
      cases hfalse
  · have h0f : (d.replace && d.module_path.isSome) = false :=
      Bool.eq_false_iff.mpr h0
    have hnotl : ¬ (d.replace = true ∧ d.module_path.isSome = true) := by
      rintro ⟨h1, h2⟩
      rw [h1, h2] at h0f
      cases h0f
    refine ⟨?_, ?_, ?_⟩
    · simp only [Magic.tmpfsDecision, Bool.not_false, Bool.true_and, h0f,
        Bool.not_false, if_true]
      rw [Magic.scan_fst]
      constructor
      · exact Or.inr
      · rintro (hl | hr)
        · exact absurd hl hnotl
        · exact hr
    · intro c' hmem hsk
      simp only [Magic.tmpfsDecision, Bool.not_false, Bool.true_and, h0f,
        Bool.not_false, if_true] at hmem
      exact Magic.scan_skipped fs d.path d.children hskip c' hmem hsk
    · intro hfalse c' hmem hneed
      simp only [Magic.tmpfsDecision, Bool.not_false, Bool.true_and, h0f,
        Bool.not_false, if_true] at hfalse hmem
      exact Magic.scan_complete fs d.path d.children hfalse c' hmem hneed

/-- C7 (witness): for a directory with a needy sourceless child first
and a needy sourced child second, the theorem applies: the sourced
child makes the decision true. -/
theorem handle_directory_tmpfs_iff_witness :
    (Magic.tmpfsDecision Inputs.c7Fs false Inputs.c7Dir).1 = true :=
  (handle_directory_tmpfs_iff Inputs.c7Fs Inputs.c7Dir (by decide)).1.mpr
    (Or.inr ⟨Inputs.c7New, by decide, by decide, by decide⟩)

/-- Helper: `mergeN` always merges the child maps, whatever the node
types. -/
theorem Magic.mergeN_children (h l : Magic.MNode) :
    (Magic.mergeN h l).children = Magic.insertAll h.children l.children := by
  cases h with
  | mk n ft mp rp cs =>
      cases l with
      | mk n' ft' mp' rp' cs' =>
          simp only [Magic.mergeN]
          split <;> rfl

/-- Helper: the merged node's scalar fields come from `high` when it has
a module path, from `low` otherwise. -/
theorem Magic.mergeN_fields (h l : Magic.MNode) :
    (h.modulePath = none →
      (Magic.mergeN h l).nodeName = h.nodeName ∧
      (Magic.mergeN h l).ftype = l.ftype ∧
      (Magic.mergeN h l).modulePath = l.modulePath ∧
      (Magic.mergeN h l).replaceFlag = l.replaceFlag) ∧
    (h.modulePath ≠ none →
      (Magic.mergeN h l).nodeName = h.nodeName ∧
      (Magic.mergeN h l).ftype = h.ftype ∧
      (Magic.mergeN h l).modulePath = h.modulePath ∧
      (Magic.mergeN h l).replaceFlag = h.replaceFlag) := by
  cases h with
  | mk n ft mp rp cs =>
      cases l with
      | mk n' ft' mp' rp' cs' =>
          by_cases hmp : mp = none
          · simp [Magic.mergeN, hmp, Magic.MNode.nodeName, Magic.MNode.ftype,
              Magic.MNode.modulePath, Magic.MNode.replaceFlag]
          · simp [Magic.mergeN, hmp, Magic.MNode.nodeName, Magic.MNode.ftype,
              Magic.MNode.modulePath, Magic.MNode.replaceFlag]

/-- Helper: the entry-update map of `insertOne` under a different key
leaves `find?` at `k` unchanged. -/
theorem Magic.find_map_ne (k k' : String) (lc' : Magic.MNode)
    (hne : (k' == k) = false) :
    ∀ hs : List (String × Magic.MNode),
      List.find? (fun kv => kv.1 == k)
        (hs.map (fun kv =>
          if kv.1 == k' then (kv.1, Magic.mergeN kv.2 lc') else kv)) =
      List.find? (fun kv => kv.1 == k) hs := by
  intro hs
  induction hs with
  | nil => rfl
  | cons kv rest ih =>
      by_cases h1 : (kv.1 == k') = true
      · have hk1 : (kv.1 == k) = false := by
          have he : kv.1 = k' := eq_of_beq h1
          rw [he]
          exact hne
        simp only [List.map_cons, h1, if_true, List.find?, hk1]
        exact ih
      · simp only [List.map_cons, h1, Bool.false_eq_true, if_false,
          List.find?]
        by_cases h2 : (kv.1 == k) = true
        · simp [h2]
        · simp only [Bool.not_eq_true] at h2
          simp only [h2]
          exact ih

/-- Helper: appending an entry under a different key leaves `find?` at
`k` unchanged. -/
theorem Magic.find_append_ne (k k' : String) (lc' : Magic.MNode)
    (hne : (k' == k) = false) :
    ∀ hs : List (String × Magic.MNode),
      List.find? (fun kv => kv.1 == k) (hs ++ [(k', lc')]) =
      List.find? (fun kv => kv.1 == k) hs := by
  intro hs
  induction hs with
  | nil => simp [List.find?, hne]
  | cons kv rest ih =>
      simp only [List.cons_append, List.find?]
      by_cases h2 : (kv.1 == k) = true
      · simp [h2]
      · simp only [Bool.not_eq_true] at h2
        simp only [h2]
        exact ih

/-- Helper: the entry-update map of `insertOne` at the occupied key `k`
turns the found value `hc` into `mergeN hc lc`. -/
theorem Magic.find_map_self (k : String) (lc : Magic.MNode) :
    ∀ (hs : List (String × Magic.MNode)) (hc : Magic.MNode),
      Option.map Prod.snd (List.find? (fun kv => kv.1 == k) hs) = some hc →
      Option.map Prod.snd (List.find? (fun kv => kv.1 == k)
        (hs.map (fun kv =>
          if kv.1 == k then (kv.1, Magic.mergeN kv.2 lc) else kv))) =
      some (Magic.mergeN hc lc) := by
  intro hs
  induction hs with
  | nil =>
      intro hc h
      cases h
  | cons kv rest ih =>
      intro hc h
      by_cases h2 : (kv.1 == k) = true
      · simp only [List.find?, h2, Option.map_some'] at h
        injection h with h
        simp only [List.map_cons, h2, if_true, List.find?, Option.map_some', h]
      · simp only [List.find?, h2, Bool.false_eq_true, if_false] at h
        simp only [List.map_cons, h2, Bool.false_eq_true, if_false,
          List.find?]
        exact ih hc h

/-- Helper: appending an entry at a key that `find?` misses makes
`find?` return it. -/
theorem Magic.find_append_self (k : String) (lc : Magic.MNode) :
    ∀ hs : List (String × Magic.MNode),
      List.find? (fun kv => kv.1 == k) hs = none →
      Option.map Prod.snd
        (List.find? (fun kv => kv.1 == k) (hs ++ [(k, lc)])) = some lc := by
  intro hs
  induction hs with
  | nil => simp [List.find?]
  | cons kv rest ih =>
      intro h
      by_cases h2 : (kv.1 == k) = true
      · simp only [List.find?, h2] at h
        cases h
      · simp only [List.find?, h2, Bool.false_eq_true, if_false] at h
        simp only [List.cons_append, List.find?, h2, Bool.false_eq_true,
          if_false]
        exact ih h

/-- Helper: inserting under a key `k'` with `(k' == k) = false` does not
change the lookup at `k`. -/
theorem Magic.lookupChild_insertOne_ne (k k' : String) (lc' : Magic.MNode)
    (hne : (k' == k) = false) (hs : List (String × Magic.MNode)) :
    Magic.lookupChild k (Magic.insertOne hs k' lc') =
      Magic.lookupChild k hs := by
  unfold Magic.insertOne
  split
  · unfold Magic.lookupChild
    rw [Magic.find_map_ne k k' lc' hne hs]
  · unfold Magic.lookupChild
    rw [Magic.find_append_ne k k' lc' hne hs]

/-- Helper: inserting under an occupied key `k` merges into the existing
entry. -/
theorem Magic.lookupChild_insertOne_self (k : String) (lc : Magic.MNode)
    (hs : List (String × Magic.MNode)) (hc : Magic.MNode)
    (hfound : Magic.lookupChild k hs = some hc) :
    Magic.lookupChild k (Magic.insertOne hs k lc) =
      some (Magic.mergeN hc lc) := by
  have hany : hs.any (fun kv => kv.1 == k) = true := by
    unfold Magic.lookupChild at hfound
    cases hf : hs.find? (fun kv => kv.1 == k) with
    | none => rw [hf] at hfound; cases hfound
    | some kv =>
        have hp := List.find?_some hf
        exact List.any_eq_true.mpr ⟨kv, List.mem_of_find?_eq_some hf, hp⟩
  unfold Magic.insertOne
  rw [if_pos hany]
  exact Magic.find_map_self k lc hs hc hfound

/-- Helper: inserting under a vacant key `k` appends the new entry. -/
theorem Magic.lookupChild_insertOne_vacant (k : String) (lc : Magic.MNode)
    (hs : List (String × Magic.MNode))
    (hnone : Magic.lookupChild k hs = none) :
    Magic.lookupChild k (Magic.insertOne hs k lc) = some lc := by
  have hfind : hs.find? (fun kv => kv.1 == k) = none := by
    unfold Magic.lookupChild at hnone
    cases hf : hs.find? (fun kv => kv.1 == k) with
    | none => rfl
    | some kv => rw [hf] at hnone; cases hnone
  have hany : hs.any (fun kv => kv.1 == k) = false := by
    rw [Bool.eq_false_iff]
    intro hx
    obtain ⟨kv, hkv, hp⟩ := List.any_eq_true.mp hx
    exact (List.find?_eq_none.mp hfind kv hkv) hp
  unfold Magic.insertOne
  rw [if_neg (by rw [hany]; exact Bool.false_ne_true)]
  unfold Magic.lookupChild
  exact Magic.find_append_self k lc hs hfind

/-- Helper: a key absent from `low`'s children is untouched by the
insertion loop. -/
theorem Magic.lookupChild_insertAll_absent (k : String) :
    ∀ (ls hs : List (String × Magic.MNode)),
      (∀ kv ∈ ls, (kv.1 == k) = false) →
      Magic.lookupChild k (Magic.insertAll hs ls) =
        Magic.lookupChild k hs := by
  intro ls
  induction ls with
  | nil =>
      intro hs _
      simp only [Magic.insertAll]
  | cons kv rest ih =>
      intro hs habs
      obtain ⟨k', lc'⟩ := kv
      rw [Magic.insertAll]
      rw [ih _ (fun kv hkv => habs kv (List.mem_cons_of_mem _ hkv))]
      exact Magic.lookupChild_insertOne_ne k k' lc'
        (habs (k', lc') (List.mem_cons_self _ _)) hs

/-- Helper: a collision (`k` occupied on both sides) resolves to the
recursive merge of the two child nodes. -/
theorem Magic.lookupChild_insertAll_collision (k : String) :
    ∀ (ls hs : List (String × Magic.MNode)) (hc lc : Magic.MNode),
      (ls.map Prod.fst).Nodup →
      Magic.lookupChild k hs = some hc →
      Magic.lookupChild k ls = some lc →
      Magic.lookupChild k (Magic.insertAll hs ls) =
        some (Magic.mergeN hc lc) := by
  intro ls
  induction ls with
  | nil =>
      intro hs hc lc _ _ hlc
      cases hlc
  | cons kv rest ih =>
      intro hs hc lc hnd hhc hlc
      obtain ⟨k', lc'⟩ := kv
      rw [List.map_cons] at hnd
      have hnd1 := (List.nodup_cons.mp hnd).1
      have hnd2 := (List.nodup_cons.mp hnd).2
      by_cases h2 : (k' == k) = true
      · have hk : k' = k := eq_of_beq h2
        subst hk
        unfold Magic.lookupChild at hlc
        simp only [List.find?, beq_self_eq_true, if_true, Option.map_some']
          at hlc
        injection hlc with hlc
        subst hlc
        rw [Magic.insertAll]
        rw [Magic.lookupChild_insertAll_absent k' rest _ ?habs]
        · exact Magic.lookupChild_insertOne_self k' lc' hs hc hhc
        · intro kv hkv
          rw [Bool.eq_false_iff]
          intro hx
          exact hnd1 (by
            rw [← eq_of_beq hx]
            exact List.mem_map.mpr ⟨kv, hkv, rfl⟩)
      · unfold Magic.lookupChild at hlc
        simp only [List.find?, h2, Bool.false_eq_true, if_false] at hlc
        rw [Magic.insertAll]
        exact ih _ hc lc hnd2
          (by rw [Magic.lookupChild_insertOne_ne k k' lc'
            (Bool.eq_false_iff.mpr h2) hs]; exact hhc)
          hlc

/-- Helper: a key occupied only on `low`'s side is inserted as-is. -/
theorem Magic.lookupChild_insertAll_vacant (k : String) :
    ∀ (ls hs : List (String × Magic.MNode)) (lc : Magic.MNode),
      (ls.map Prod.fst).Nodup →
      Magic.lookupChild k hs = none →
      Magic.lookupChild k ls = some lc →
      Magic.lookupChild k (Magic.insertAll hs ls) = some lc := by
  intro ls
  induction ls with
  | nil =>
      intro hs lc _ _ hlc
      cases hlc
  | cons kv rest ih =>
      intro hs lc hnd hnone hlc
      obtain ⟨k', lc'⟩ := kv
      rw [List.map_cons] at hnd
      have hnd1 := (List.nodup_cons.mp hnd).1
      have hnd2 := (List.nodup_cons.mp hnd).2
      by_cases h2 : (k' == k) = true
      · have hk : k' = k := eq_of_beq h2
        subst hk
        unfold Magic.lookupChild at hlc
        simp only [List.find?, beq_self_eq_true, if_true, Option.map_some']
          at hlc
        injection hlc with hlc
        subst hlc
        rw [Magic.insertAll]
        rw [Magic.lookupChild_insertAll_absent k' rest _ ?habs2]
        · exact Magic.lookupChild_insertOne_vacant k' lc' hs hnone
        · intro kv hkv
          rw [Bool.eq_false_iff]
          intro hx
          exact hnd1 (by
            rw [← eq_of_beq hx]
            exact List.mem_map.mpr ⟨kv, hkv, rfl⟩)
      · unfold Magic.lookupChild at hlc
        simp only [List.find?, h2, Bool.false_eq_true, if_false] at hlc
        rw [Magic.insertAll]
        exact ih _ lc hnd2
          (by rw [Magic.lookupChild_insertOne_ne k k' lc'
            (Bool.eq_false_iff.mpr h2) hs]; exact hnone)
          hlc

/-- C8 (counterexample): on a collision where the nodes are not both
directories the first module's node is *not* kept as-is.  Merging module
`A` (file `f` with source) with module `B` (directory `f` containing
`g`) grafts `B`'s child `g` beneath `A`'s file node, so the merged tree
has a node at `f/g` where `A` had none; and merging a sourceless
directory `vendor` (a synthetic partition root) with a file named
`vendor` lets the *second* module's fields win: the merged node at
`vendor` is a regular file with `D`'s source, not `C`'s directory. -/
theorem merge_nodes_counterexample :
    Magic.lookupFields (Magic.mergeN Inputs.c8A Inputs.c8B) ["f", "g"] =
      some ("g", .regularFile, some "/m/B/f/g", false) ∧
    Magic.lookupFields Inputs.c8A ["f", "g"] = none ∧
    Magic.lookupFields (Magic.mergeN Inputs.c8C Inputs.c8D) ["vendor"] =
      some ("vendor", .regularFile, some "/m/D/system/vendor", false) ∧
    Magic.lookupFields Inputs.c8C ["vendor"] =
      some ("vendor", .directory, none, false) := by
  have hAB : Magic.lookupChild "f" (Magic.mergeN Inputs.c8A Inputs.c8B).children
      = some (Magic.mergeN Inputs.c8Af Inputs.c8Bf) := by
    rw [Magic.mergeN_children]
    exact Magic.lookupChild_insertAll_collision "f" Inputs.c8B.children
      Inputs.c8A.children Inputs.c8Af Inputs.c8Bf (by decide) rfl rfl
  have hfg : Magic.lookupChild "g"
      (Magic.mergeN Inputs.c8Af Inputs.c8Bf).children = some Inputs.c8g := by
    rw [Magic.mergeN_children]
    exact Magic.lookupChild_insertAll_vacant "g" Inputs.c8Bf.children
      Inputs.c8Af.children Inputs.c8g (by decide) rfl rfl
  have hCD : Magic.lookupChild "vendor"
      (Magic.mergeN Inputs.c8C Inputs.c8D).children
      = some (Magic.mergeN Inputs.c8Cv Inputs.c8Dv) := by
    rw [Magic.mergeN_children]
    exact Magic.lookupChild_insertAll_collision "vendor" Inputs.c8D.children
      Inputs.c8C.children Inputs.c8Cv Inputs.c8Dv (by decide) rfl rfl
  obtain ⟨hn, hf, hm, hr⟩ := (Magic.mergeN_fields Inputs.c8Cv Inputs.c8Dv).1 rfl
  refine ⟨?_, rfl, ?_, rfl⟩
  · calc Magic.lookupFields (Magic.mergeN Inputs.c8A Inputs.c8B) ["f", "g"]
        = match Magic.lookupChild "f"
            (Magic.mergeN Inputs.c8A Inputs.c8B).children with
          | some c => Magic.lookupFields c ["g"]
          | none => none := Magic.lookupFields.eq_2 _ "f" ["g"]
      _ = match some (Magic.mergeN Inputs.c8Af Inputs.c8Bf) with
          | some c => Magic.lookupFields c ["g"]
          | none => none := by rw [hAB]
      _ = Magic.lookupFields (Magic.mergeN Inputs.c8Af Inputs.c8Bf) ["g"] := rfl
      _ = match Magic.lookupChild "g"
            (Magic.mergeN Inputs.c8Af Inputs.c8Bf).children with
          | some c => Magic.lookupFields c []
          | none => none := Magic.lookupFields.eq_2 _ "g" []
      _ = match some Inputs.c8g with
          | some c => Magic.lookupFields c []
          | none => none := by rw [hfg]
      _ = Magic.lookupFields Inputs.c8g [] := rfl
      _ = some ("g", .regularFile, some "/m/B/f/g", false) := rfl
  · calc Magic.lookupFields (Magic.mergeN Inputs.c8C Inputs.c8D) ["vendor"]
        = match Magic.lookupChild "vendor"
            (Magic.mergeN Inputs.c8C Inputs.c8D).children with
          | some c => Magic.lookupFields c []
          | none => none := Magic.lookupFields.eq_2 _ "vendor" []
      _ = match some (Magic.mergeN Inputs.c8Cv Inputs.c8Dv) with
          | some c => Magic.lookupFields c []
          | none => none := by rw [hCD]
      _ = Magic.lookupFields (Magic.mergeN Inputs.c8Cv Inputs.c8Dv) [] := rfl
      _ = some ((Magic.mergeN Inputs.c8Cv Inputs.c8Dv).nodeName,
            (Magic.mergeN Inputs.c8Cv Inputs.c8Dv).ftype,
            (Magic.mergeN Inputs.c8Cv Inputs.c8Dv).modulePath,
            (Magic.mergeN Inputs.c8Cv Inputs.c8Dv).replaceFlag) :=
          Magic.lookupFields.eq_1 _
      _ = some ("vendor", .regularFile, some "/m/D/system/vendor", false) := by
          rw [hn, hf, hm, hr]
          rfl

/-- C8 (amended): `merge_nodes` is commutative (extensionally, at every
path) for trees whose child maps are key-disjoint; on a collision the
two nodes are always merged recursively, whatever their file types: the
earlier node's type, source and replace flag are kept exactly when it
has a module source (a sourceless earlier node takes the later node's
fields), the later node's children are always grafted into the merged
node, keys present on only one side are taken from that side, and the
earlier node is kept exactly when it has a source and the later node
has no children. -/
theorem merge_nodes_characterization :
    (∀ h l : Magic.MNode, h.modulePath.isSome = true →
      (Magic.mergeN h l).ftype = h.ftype ∧
      (Magic.mergeN h l).modulePath = h.modulePath ∧
      (Magic.mergeN h l).replaceFlag = h.replaceFlag ∧
      (l.children = [] → Magic.mergeN h l = h)) ∧
    (∀ h l : Magic.MNode, h.modulePath = none →
      (Magic.mergeN h l).ftype = l.ftype ∧
      (Magic.mergeN h l).modulePath = l.modulePath ∧
      (Magic.mergeN h l).replaceFlag = l.replaceFlag) ∧
    (∀ (h l : Magic.MNode) (k : String) (hc lc : Magic.MNode),
      (l.children.map Prod.fst).Nodup →
      Magic.lookupChild k h.children = some hc →
      Magic.lookupChild k l.children = some lc →
      Magic.lookupChild k (Magic.mergeN h l).children =
        some (Magic.mergeN hc lc)) ∧
    (∀ (h l : Magic.MNode) (k : String) (lc : Magic.MNode),
      (l.children.map Prod.fst).Nodup →
      Magic.lookupChild k h.children = none →
      Magic.lookupChild k l.children = some lc →
      Magic.lookupChild k (Magic.mergeN h l).children = some lc) ∧
    (∀ (h l : Magic.MNode) (k : String),
      Magic.lookupChild k l.children = none →
      Magic.lookupChild k (Magic.mergeN h l).children =
        Magic.lookupChild k h.children) ∧
    (∀ (n : String) (csA csB : List (String × Magic.MNode)),
      (csA.map Prod.fst).Nodup → (csB.map Prod.fst).Nodup →
      (∀ kv ∈ csA, csB.all (fun kv' => !(kv'.1 == kv.1)) = true) →
      ∀ p, Magic.lookupFields
          (Magic.mergeN (.mk n .directory none false csA)
            (.mk n .directory none false csB)) p =
        Magic.lookupFields
          (Magic.mergeN (.mk n .directory none false csB)
            (.mk n .directory none false csA)) p) := by
  have absent_of_none : ∀ (k : String) (cs : List (String × Magic.MNode)),
      Magic.lookupChild k cs = none → ∀ kv ∈ cs, (kv.1 == k) = false := by
    intro k cs hnone kv hkv
    have hfind : cs.find? (fun kv => kv.1 == k) = none := by
      unfold Magic.lookupChild at hnone
      cases hf : cs.find? (fun kv => kv.1 == k) with
      | none => rfl
      | some kv' => rw [hf] at hnone; cases hnone
    rw [Bool.eq_false_iff]
    exact List.find?_eq_none.mp hfind kv hkv
  refine ⟨?_, ?_, ?_, ?_, ?_, ?_⟩
  · intro h l hsome
    have hne : h.modulePath ≠ none := by
      intro hx
      rw [hx] at hsome
      cases hsome
    obtain ⟨-, hf, hm, hr⟩ := (Magic.mergeN_fields h l).2 hne
    refine ⟨hf, hm, hr, ?_⟩
    intro hempty
    cases h with
    | mk n ft mp rp cs =>
        cases l with
        | mk n' ft' mp' rp' cs' =>
            have hmp : mp ≠ none := hne
            simp only [Magic.MNode.children] at hempty
            subst hempty
            simp [Magic.mergeN, hmp, Magic.insertAll]
  · intro h l hnone
    exact ((Magic.mergeN_fields h l).1 hnone).2
  · intro h l k hc lc hnd hhc hlc
    rw [Magic.mergeN_children]
    exact Magic.lookupChild_insertAll_collision k l.children h.children
      hc lc hnd hhc hlc
  · intro h l k lc hnd hnone hlc
    rw [Magic.mergeN_children]
    exact Magic.lookupChild_insertAll_vacant k l.children h.children
      lc hnd hnone hlc
  · intro h l k hnone
    rw [Magic.mergeN_children]
    exact Magic.lookupChild_insertAll_absent k l.children h.children
      (absent_of_none k l.children hnone)
  · intro n csA csB hndA hndB hdisj
    have hdisj' : ∀ (k : String) (c : Magic.MNode),
        Magic.lookupChild k csA = some c →
        Magic.lookupChild k csB = none := by
      intro k c hA
      unfold Magic.lookupChild at hA
      cases hf : csA.find? (fun kv => kv.1 == k) with
      | none => rw [hf] at hA; cases hA
      | some kv =>
          have hp := List.find?_some hf
          have hmem := List.mem_of_find?_eq_some hf
          have hallB := hdisj kv hmem
          have hk : kv.1 = k := eq_of_beq hp
          unfold Magic.lookupChild
          rw [List.find?_eq_none.mpr]
          · rfl
          · intro kv' hkv'
            have := List.all_eq_true.mp hallB kv' hkv'
            rw [Bool.not_eq_true'] at this
            rw [← hk]
            intro hx
            rw [hx] at this
            cases this
    have key : ∀ k : String,
        Magic.lookupChild k (Magic.insertAll csA csB) =
        Magic.lookupChild k (Magic.insertAll csB csA) := by
      intro k
      cases hB : Magic.lookupChild k csB with
      | some c =>
          have hA : Magic.lookupChild k csA = none := by
            cases hA : Magic.lookupChild k csA with
            | none => rfl
            | some c' =>
                rw [hdisj' k c' hA] at hB
                cases hB
          rw [Magic.lookupChild_insertAll_vacant k csB csA c hndB hA hB]
          rw [Magic.lookupChild_insertAll_absent k csA csB
            (absent_of_none k csA hA)]
          rw [hB]
      | none =>
          rw [Magic.lookupChild_insertAll_absent k csB csA
            (absent_of_none k csB hB)]
          cases hA : Magic.lookupChild k csA with
          | some c =>
              rw [Magic.lookupChild_insertAll_vacant k csA csB c hndA hB hA]
          | none =>
              rw [Magic.lookupChild_insertAll_absent k csA csB
                (absent_of_none k csA hA)]
              rw [hB]
    intro p
    cases p with
    | nil =>
        simp [Magic.lookupFields, Magic.mergeN, Magic.MNode.nodeName,
          Magic.MNode.ftype, Magic.MNode.modulePath, Magic.MNode.replaceFlag]
    | cons k rest =>
        rw [Magic.lookupFields.eq_2, Magic.lookupFields.eq_2]
        rw [Magic.mergeN_children, Magic.mergeN_children]
        rw [show (Magic.MNode.mk n .directory none false csA).children = csA
            from rfl,
          show (Magic.MNode.mk n .directory none false csB).children = csB
            from rfl]
        rw [key k]

/-- C8 (witness for the amended theorem): merging the key-disjoint child
maps `[a ↦ leaf]` and `[b ↦ leaf]` in either order yields the same node
at path `a`. -/
theorem merge_nodes_characterization_witness :
    Magic.lookupFields
      (Magic.mergeN (.mk "" .directory none false Inputs.c8w1)
        (.mk "" .directory none false Inputs.c8w2)) ["a"] =
    Magic.lookupFields
      (Magic.mergeN (.mk "" .directory none false Inputs.c8w2)
        (.mk "" .directory none false Inputs.c8w1)) ["a"] :=
  merge_nodes_characterization.2.2.2.2.2 "" Inputs.c8w1 Inputs.c8w2
    (by decide) (by decide) (by decide) ["a"]

/-- C9: scheduling a path into the umount sink is idempotent — a second
`send_unmountable` with the same path leaves the history and the queue
exactly as after the first call (and also returns `Ok`) — and when the
KSU helper is unavailable every call returns `Ok` leaving the state
untouched. -/
theorem send_unmountable_idempotent (ksu : Bool) (s : TryUmount.SinkState)
    (p : String) :
    TryUmount.send_unmountable ksu
        (TryUmount.send_unmountable ksu s p).1 p =
      TryUmount.send_unmountable ksu s p ∧
    (∀ s' : TryUmount.SinkState, ∀ p' : String,
      TryUmount.send_unmountable false s' p' = (s', true)) := by
  constructor
  · by_cases hk : ksu
    · by_cases hc : p ∈ s.history
      · simp [TryUmount.send_unmountable, hk, hc]
      · simp [TryUmount.send_unmountable, hk, hc, List.mem_append]
    · simp [TryUmount.send_unmountable, hk]
  · intro s' p'
    simp [TryUmount.send_unmountable]

/-- C10: `lsetfilecon` returns `Ok(())` for every path and context,
whatever the outcome of the underlying `lsetxattr` call — every error is
swallowed. -/
theorem lsetfilecon_always_ok
    (lsetxattrResult : String → String → Except String Unit)
    (path con : String) :
    Xattr.lsetfilecon lsetxattrResult path con = .ok () := by
  unfold Xattr.lsetfilecon
  cases lsetxattrResult path con <;> rfl
